import Mathlib

/-!
Verification of the message abstraction and its conversion pipeline
(`messaging/message.py`).

Modelling conventions (shallow embedding, Python 3 semantics):
* a Python *text string* is a list of Unicode code points (`Codepoints`);
* a Python *byte string* is a list of naturals (`Bytes`), each `< 256` in
  well-formed data;
* a value that may be either is `PyStr`;
* the compression libraries (`zlib`, `snappy`, `lz4`) are external to the
  repository; they are modelled as an environment `Env` of named
  compress/decompress function pairs (the installed set `_COMPRESSORS`);
* `hashlib.md5` is external; the checksum is parameterised by an abstract
  digest function `Bytes → Codepoints` (bytes to lowercase-hex text);
* the `json` module is external; stringification is parameterised by an
  abstract `JsonCodec`;
* fallible operations return `Except MsgError`, with one constructor per
  distinct Python exception site.
The interpreter check `_py2`/`_py3` is resolved to Python 3 throughout
(`_py3` is true on every modern interpreter).
-/

namespace Messaging

/-- Byte strings: lists of naturals (each `< 256` in well-formed data). -/
abbrev Bytes := List Nat

/-- Text strings: lists of Unicode code points. -/
abbrev Codepoints := List Nat

/-- A Python value that is either a text string or a byte string. -/
inductive PyStr where
  | str (s : Codepoints)
  | bytes (b : Bytes)
deriving DecidableEq

/-- `is_bytes` from the source: is the value a byte string? -/
def pyIsBytes : PyStr → Bool
  | .str _ => false
  | .bytes _ => true

/-- Python truthiness of a string value: non-empty. -/
def pyTruthy : PyStr → Bool
  | .str s => !s.isEmpty
  | .bytes b => !b.isEmpty

/-- Python `len` of a string value. -/
def pyLen : PyStr → Nat
  | .str s => s.length
  | .bytes b => b.length

/-- A message header: a string-keyed dict, modelled as an association list
(key codepoints, value codepoints); keys are unique in well-formed data. -/
abbrev Header := List (Codepoints × Codepoints)

/-- Dict lookup on a header. -/
def hLookup (k : Codepoints) : Header → Option Codepoints
  | [] => none
  | kv :: t => if kv.1 = k then some kv.2 else hLookup k t

/-- The `Message` aggregate: private fields `__body`, `__header`, `__text`.
`header` is never `None` after the setter, so it is a plain list here. -/
structure Message where
  body : PyStr
  header : Header
  text : Bool
deriving DecidableEq

/-- `Message.set_body`: `None` becomes `DEFAULT_BODY = b''`; the text flag is
recomputed from the new value. -/
def Message.setBody (v : Option PyStr) (m : Message) : Message :=
  let b := v.getD (.bytes [])
  { m with body := b, text := !(pyIsBytes b) }

/-- `Message.set_header`: `None` becomes the empty dict. -/
def Message.setHeader (v : Option Header) (m : Message) : Message :=
  { m with header := v.getD [] }

/-- `Message.set_text`: sets the flag directly (a public property setter). -/
def Message.setText (v : Bool) (m : Message) : Message :=
  { m with text := v }

/-- `Message.__init__(body, header)`: sets body (recomputing the flag), then
header. -/
def Message.init (body : PyStr) (header : Option Header) : Message :=
  Message.setHeader header (Message.setBody (some body) ⟨.bytes [], [], false⟩)

/-- `Message()`: the default constructor; the default body is
`DEFAULT_BODY = ''.encode()`, a byte string, and the default header `None`
(turned into the empty dict by the setter). -/
def defaultMessage : Message := Message.init (.bytes []) none

/-- `Message.is_text` / `get_text`: the body is never `None` through the
public contract, so this returns the stored flag. -/
def Message.isText (m : Message) : Bool := m.text

/-- The intended data-model invariant: the flag matches the body's kind. -/
def Message.Consistent (m : Message) : Prop := m.text = !(pyIsBytes m.body)

instance (m : Message) : Decidable m.Consistent := by
  unfold Message.Consistent; infer_instance

/-- `Message.__eq__`: flags and bodies must match, then every key/value pair
of `self`'s header must be found in `other`'s header (the `header is None`
branch of the source is dead code: the setter never stores `None`). -/
def Message.beq (a b : Message) : Bool :=
  if a.text ≠ b.text ∨ a.body ≠ b.body then false
  else a.header.all (fun kv => hLookup kv.1 b.header = some kv.2)

/-- `Message.size`: `len(body) + 1 + Σ (len(key) + len(value) + 2)`. -/
def Message.size (m : Message) : Nat :=
  pyLen m.body + 1 + (m.header.map (fun kv => kv.1.length + kv.2.length + 2)).sum

/-! ## UTF-8 (strict, as Python's `encode`/`decode` with the default codec) -/

/-- A code point Python can UTF-8 encode: in range and not a surrogate. -/
def ValidCp (c : Nat) : Prop := c < 0xd800 ∨ (0xe000 ≤ c ∧ c < 0x110000)

instance (c : Nat) : Decidable (ValidCp c) := by
  unfold ValidCp; infer_instance

/-- UTF-8 encoding of one code point (1 to 4 bytes). -/
def utf8EncodeCp (c : Nat) : Bytes :=
  if c < 0x80 then [c]
  else if c < 0x800 then [0xc0 + c / 64, 0x80 + c % 64]
  else if c < 0x10000 then
    [0xe0 + c / 4096, 0x80 + c / 64 % 64, 0x80 + c % 64]
  else
    [0xf0 + c / 262144, 0x80 + c / 4096 % 64, 0x80 + c / 64 % 64, 0x80 + c % 64]

/-- `str.encode("utf-8")`. -/
def utf8EncodeStr (s : Codepoints) : Bytes := (s.map utf8EncodeCp).flatten

/-- Decode a 2-byte UTF-8 sequence: continuation byte after lead `b`. -/
def utf8Cont1 (b : Nat) : Bytes → Option (Nat × Bytes)
  | c1 :: t1 =>
    if 0x80 ≤ c1 ∧ c1 < 0xc0 then
      some ((b - 0xc0) * 64 + (c1 - 0x80), t1)
    else none
  | _ => none

/-- Decode a 3-byte UTF-8 sequence: two continuation bytes after lead `b`;
rejects overlong forms and surrogates. -/
def utf8Cont2 (b : Nat) : Bytes → Option (Nat × Bytes)
  | c1 :: c2 :: t2 =>
    if 0x80 ≤ c1 ∧ c1 < 0xc0 ∧ 0x80 ≤ c2 ∧ c2 < 0xc0 then
      if 0x800 ≤ (b - 0xe0) * 4096 + (c1 - 0x80) * 64 + (c2 - 0x80) ∧
          ¬(0xd800 ≤ (b - 0xe0) * 4096 + (c1 - 0x80) * 64 + (c2 - 0x80) ∧
            (b - 0xe0) * 4096 + (c1 - 0x80) * 64 + (c2 - 0x80) < 0xe000) then
        some ((b - 0xe0) * 4096 + (c1 - 0x80) * 64 + (c2 - 0x80), t2)
      else none
    else none
  | _ => none

/-- Decode a 4-byte UTF-8 sequence: three continuation bytes after lead `b`;
rejects overlong and out-of-range forms. -/
def utf8Cont3 (b : Nat) : Bytes → Option (Nat × Bytes)
  | c1 :: c2 :: c3 :: t3 =>
    if 0x80 ≤ c1 ∧ c1 < 0xc0 ∧ 0x80 ≤ c2 ∧ c2 < 0xc0 ∧
        0x80 ≤ c3 ∧ c3 < 0xc0 then
      if 0x10000 ≤ (b - 0xf0) * 262144 + (c1 - 0x80) * 4096 +
            (c2 - 0x80) * 64 + (c3 - 0x80) ∧
          (b - 0xf0) * 262144 + (c1 - 0x80) * 4096 +
            (c2 - 0x80) * 64 + (c3 - 0x80) < 0x110000 then
        some ((b - 0xf0) * 262144 + (c1 - 0x80) * 4096 +
          (c2 - 0x80) * 64 + (c3 - 0x80), t3)
      else none
    else none
  | _ => none

/-- Strict UTF-8 decoding of one code point: given the first byte and the
remaining bytes, return the code point and the rest; rejects stray
continuation bytes, overlong forms, surrogates and out-of-range values. -/
def utf8One (b : Nat) (t : Bytes) : Option (Nat × Bytes) :=
  if b < 0x80 then some (b, t)
  else if b < 0xc2 then none
  else if b < 0xe0 then utf8Cont1 b t
  else if b < 0xf0 then utf8Cont2 b t
  else if b < 0xf5 then utf8Cont3 b t
  else none

/-- The decoding driver, structurally recursive on a fuel bound (any fuel at
least the byte count gives the same result). -/
def utf8DecF : Nat → Bytes → Option Codepoints
  | _, [] => some []
  | 0, _ :: _ => none
  | fuel + 1, b :: t =>
    (utf8One b t).bind (fun cr => (utf8DecF fuel cr.2).map (cr.1 :: ·))

/-- `bytes.decode("utf-8")`: strict decoding. -/
def utf8Dec (b : Bytes) : Option Codepoints := utf8DecF b.length b

/-! ## Base64 (`base64.b64encode` / `base64.b64decode`) -/

/-- The base64 alphabet, index to character code. -/
def b64Char (i : Nat) : Nat :=
  if i < 26 then 65 + i
  else if i < 52 then 97 + (i - 26)
  else if i < 62 then 48 + (i - 52)
  else if i = 62 then 43
  else 47

/-- Character code back to alphabet index. -/
def b64Index (c : Nat) : Option Nat :=
  if 65 ≤ c ∧ c ≤ 90 then some (c - 65)
  else if 97 ≤ c ∧ c ≤ 122 then some (c - 97 + 26)
  else if 48 ≤ c ∧ c ≤ 57 then some (c - 48 + 52)
  else if c = 43 then some 62
  else if c = 47 then some 63
  else none

/-- `base64.b64encode`: three bytes at a time, `=`-padded (61 is `'='`). -/
def b64encode : Bytes → Bytes
  | b1 :: b2 :: b3 :: t =>
    b64Char (b1 / 4) :: b64Char (b1 % 4 * 16 + b2 / 16) ::
      b64Char (b2 % 16 * 4 + b3 / 64) :: b64Char (b3 % 64) :: b64encode t
  | [b1, b2] =>
    [b64Char (b1 / 4), b64Char (b1 % 4 * 16 + b2 / 16), b64Char (b2 % 16 * 4), 61]
  | [b1] => [b64Char (b1 / 4), b64Char (b1 % 4 * 16), 61, 61]
  | [] => []

/-- `base64.b64decode`: four characters at a time; a malformed input is a
`binascii.Error`, modelled as `none`. -/
def b64decode : Bytes → Option Bytes
  | [] => some []
  | c1 :: c2 :: c3 :: c4 :: t =>
    (b64Index c1).bind (fun i1 =>
      (b64Index c2).bind (fun i2 =>
        if c3 = 61 then
          if c4 = 61 ∧ t = [] then some [i1 * 4 + i2 / 16] else none
        else
          (b64Index c3).bind (fun i3 =>
            if c4 = 61 then
              if t = [] then some [i1 * 4 + i2 / 16, i2 % 16 * 16 + i3 / 4]
              else none
            else
              (b64Index c4).bind (fun i4 =>
                (b64decode t).map (fun rest =>
                  (i1 * 4 + i2 / 16) :: (i2 % 16 * 16 + i3 / 4) ::
                    (i3 % 4 * 64 + i4) :: rest)))))
  | _ => none

/-! ## Encoding tokens and the compression environment -/

/-- `"utf8"` as code points. -/
def tokUtf8 : Codepoints := [117, 116, 102, 56]

/-- `"base64"` as code points. -/
def tokBase64 : Codepoints := [98, 97, 115, 101, 54, 52]

/-- `"lz4"` as code points. -/
def tokLz4 : Codepoints := [108, 122, 52]

/-- `"snappy"` as code points. -/
def tokSnappy : Codepoints := [115, 110, 97, 112, 112, 121]

/-- `"zlib"` as code points. -/
def tokZlib : Codepoints := [122, 108, 105, 98]

/-- The keys of `COMPRESSORS_SUPPORTED`: the fixed compression vocabulary. -/
def SUPPORTED : List Codepoints := [tokLz4, tokSnappy, tokZlib]

/-- `AVAILABLE_DECODING`: the full recognized token vocabulary. -/
def AVAILABLE_DECODING : List Codepoints := SUPPORTED ++ [tokBase64, tokUtf8]

/-- The installed compressors `_COMPRESSORS`: name, `compress`, `decompress`.
The libraries are external to the repository; their functions are abstract. -/
structure Env where
  compressors : List (Codepoints × (Bytes → Bytes) × (Bytes → Bytes))

/-- The installed compressor names (the keys of `_COMPRESSORS`). -/
def Env.names (e : Env) : List Codepoints := e.compressors.map (·.1)

/-- `_COMPRESSORS_RE.match(c)`: the regex `^(n1|n2|...)` over the *installed*
names matches iff some installed name is a prefix of `c`; with no installed
compressor the pattern is `^()`, which matches everything. -/
def compressionMatch (env : Env) (c : Codepoints) : Bool :=
  env.compressors.isEmpty || env.names.any (fun n => n.isPrefixOf c)

/-- Split a text string on `'+'` (code 43), as Python `str.split('+')`. -/
def splitPlus : Codepoints → List Codepoints
  | [] => [[]]
  | c :: t =>
    if c = 43 then [] :: splitPlus t
    else (c :: (splitPlus t).headI) :: (splitPlus t).tail

/-- Join token strings with `'+'`, as Python `'+'.join`. -/
def joinPlus : List Codepoints → Codepoints
  | [] => []
  | [t] => t
  | t :: ts => t ++ 43 :: joinPlus ts

/-! ## The structured (JSON-compatible) representation -/

/-- The JSON-compatible object: up to four optional fields. The `encoding`
field is the `+`-joined token string. -/
structure JsonObj where
  header : Option Header
  body : Option PyStr
  text : Option Bool
  encoding : Option Codepoints
deriving DecidableEq

/-- Errors; one constructor per distinct Python exception site. -/
inductive MsgError where
  | unsupportedCompression (c : Codepoints)
  | unknownEncoding (t : Codepoints)
  | encodingUnavailable (t : Codepoints)
  | keyError
  | typeError
  | b64Error
  | unicodeError
  | invalidJSON
  | invalidEncoding
deriving DecidableEq

/-! ## jsonify -/

/-- `_compress_it`: skip bodies shorter than 255 bytes; otherwise look the
algorithm up by exact name (a miss is a `KeyError`) and keep the compressed
result only when it is strictly smaller than 90% of the original.  The
source compares `float(len(tmp)) / body_len < 0.9`; for every feasible body
length (far below 2^50) the double-precision comparison agrees with the
rational comparison `10 * len(tmp) < 9 * body_len` used here. -/
def compressIt (env : Env) (c : Codepoints) (b : Bytes) :
    Except MsgError (Option Bytes) :=
  if b.length < 255 then .ok none
  else
    match env.compressors.find? (fun p => p.1 = c) with
    | none => .error .keyError
    | some p =>
      if 10 * (p.2.1 b).length < 9 * b.length then .ok (some (p.2.1 b))
      else .ok none

/-- `_base64_it`'s guard, Python 3 branch: base64 is *skipped* iff the body
bytes decode as UTF-8 and the decoded text has no character matched by
`[\x00-\x1f\x7f-\xff]` (searched anywhere in the string). -/
def base64Needed (b : Bytes) : Bool :=
  match utf8Dec b with
  | some s => s.any (fun c => c ≤ 0x1f ∨ (0x7f ≤ c ∧ c ≤ 0xff))
  | none => true

/-- The object built by the binary branch of `jsonify`: the body after the
optional compression (`b1`, with token list `ctok`), then `_base64_it`, then
the `+`-joined encoding field (omitted when no token was recorded). -/
def binaryOut (hdr : Option Header) (ctok : List Codepoints) (b1 : Bytes) :
    JsonObj :=
  ⟨hdr, some (.bytes (if base64Needed b1 then b64encode b1 else b1)), none,
    if (if base64Needed b1 then ctok ++ [tokBase64] else ctok).isEmpty then none
    else some (joinPlus (if base64Needed b1 then ctok ++ [tokBase64]
      else ctok))⟩

/-- `Message.jsonify` after the compression-option validation; `comp` is the
already-truthiness-checked compression token (`None`/`''` become `none`).
In the text branch `_utf8_it` encodes unconditionally (the non-ASCII test is
the Python 2 path), so `tmp_encoding` is always 1 and the rollback happens
exactly when the compression token was not recorded. -/
def jsonifyBody (env : Env) (m : Message) (comp : Option Codepoints) :
    Except MsgError JsonObj :=
  let hdr : Option Header := if m.header.isEmpty then none else some m.header
  if ¬ pyTruthy m.body then .ok ⟨hdr, none, none, none⟩
  else if m.text then
    match comp with
    | none => .ok ⟨hdr, some m.body, some true, none⟩
    | some c =>
      match m.body with
      | .bytes _ => .error .typeError
      | .str s =>
        match compressIt env c (utf8EncodeStr s) with
        | .error e => .error e
        | .ok none => .ok ⟨hdr, some m.body, some true, none⟩
        | .ok (some tmp) =>
          if base64Needed tmp then
            .ok ⟨hdr, some (.bytes (b64encode tmp)), some true,
              some (joinPlus [tokUtf8, c, tokBase64])⟩
          else
            .ok ⟨hdr, some (.bytes tmp), some true, some (joinPlus [tokUtf8, c])⟩
  else
    match m.body with
    | .str _ => .error .typeError
    | .bytes bb =>
      match comp with
      | none => .ok (binaryOut hdr [] bb)
      | some c =>
        match compressIt env c bb with
        | .error e => .error e
        | .ok none => .ok (binaryOut hdr [] bb)
        | .ok (some tmp) => .ok (binaryOut hdr [c] tmp)

/-- `Message.jsonify`: validate the requested compression against the
installed-compressor regex, then build the object. -/
def jsonify (env : Env) (m : Message) (compression : Option Codepoints) :
    Except MsgError JsonObj :=
  match compression with
  | some c =>
    if ¬ compressionMatch env c then .error (.unsupportedCompression c)
    else jsonifyBody env m (if c = [] then none else some c)
  | none => jsonifyBody env m none

/-! ## dejsonify -/

/-- The token verification loop of `dejsonify`: the first unrecognized token
fails, a recognized compression token that is not installed fails. -/
def checkTokens (env : Env) : List Codepoints → Option MsgError
  | [] => none
  | t :: r =>
    if t ∉ AVAILABLE_DECODING then some (.unknownEncoding t)
    else if t ∈ SUPPORTED ∧ t ∉ env.names then some (.encodingUnavailable t)
    else checkTokens env r

/-- Coerce a body to bytes (`body.encode()` if it is a text string). -/
def toBytes : PyStr → Bytes
  | .str s => utf8EncodeStr s
  | .bytes b => b

/-- The decompression loop: every installed compressor whose name appears
among the tokens is applied, in registry order. -/
def decompressFold (env : Env) (tokens : List Codepoints) (b : Bytes) : Bytes :=
  env.compressors.foldl (fun x p => if p.1 ∈ tokens then p.2.2 x else x) b

/-- The tokens of an `encoding` field: Python splits only when the field is
present and truthy (a present-but-empty string is falsy). -/
def splitTokens : Option Codepoints → List Codepoints
  | some e => if e = [] then [] else splitPlus e
  | none => []

/-- The final body adjustment of `dejsonify`: decode bytes when text was
requested, encode text when it was not. -/
def finalizeBody (isText : Bool) : PyStr → Except MsgError PyStr
  | .bytes b =>
    if isText then
      match utf8Dec b with
      | some s => .ok (.str s)
      | none => .error .unicodeError
    else .ok (.bytes b)
  | .str s => if isText then .ok (.str s) else .ok (.bytes (utf8EncodeStr s))

/-- The inverse transforms of `dejsonify`, in their fixed order: base64
decode first (when the token is present), then every installed decompressor
whose token is present, then UTF-8 decode (when the token is present). -/
def decodeSteps (env : Env) (tokens : List Codepoints) (b : Bytes) :
    Except MsgError PyStr :=
  match (if tokBase64 ∈ tokens then b64decode b else some b) with
  | none => .error .b64Error
  | some b1 =>
    let b2 := decompressFold env tokens b1
    if tokUtf8 ∈ tokens then
      match utf8Dec b2 with
      | some s => .ok (.str s)
      | none => .error .unicodeError
    else .ok (.bytes b2)

/-- The tail of `dejsonify`: final body adjustment and construction. -/
def finalizeMsg (isText : Bool) (header : Header) (r : Except MsgError PyStr) :
    Except MsgError Message :=
  match r with
  | .error e => .error e
  | .ok body1 =>
    match finalizeBody isText body1 with
    | .error e => .error e
    | .ok body2 => .ok (Message.init body2 (some header))

/-- `dejsonify`: read the four fields, verify every token, then apply the
inverse transforms in the fixed order base64 / decompress / UTF-8, and
construct the message. -/
def dejsonify (env : Env) (obj : JsonObj) : Except MsgError Message :=
  let isText : Bool := obj.text = some true
  let header := obj.header.getD []
  let body0 := obj.body.getD (.bytes [])
  let tokens := splitTokens obj.encoding
  finalizeMsg isText header
    (if tokens.isEmpty then .ok body0
     else
       match checkTokens env tokens with
       | some err => .error err
       | none => decodeSteps env tokens (toBytes body0))

/-! ## stringify / serialize and their inverses -/

/-- The abstract JSON text codec (the external `json` module): `dumps`
renders an object as a text string, `loads` parses one back. -/
structure JsonCodec where
  dumps : JsonObj → Codepoints
  loads : Codepoints → Option JsonObj

/-- The body adjustment of `stringify`: a byte-valued body is decoded as
UTF-8 text before JSON rendering. -/
def stringifyObj (j : JsonObj) : Except MsgError JsonObj :=
  match j.body with
  | some (.bytes b) =>
    match utf8Dec b with
    | some s => .ok ⟨j.header, some (.str s), j.text, j.encoding⟩
    | none => .error .unicodeError
  | _ => .ok j

/-- `Message.stringify`. -/
def stringify (env : Env) (codec : JsonCodec) (m : Message)
    (compression : Option Codepoints) : Except MsgError Codepoints :=
  match jsonify env m compression with
  | .error e => .error e
  | .ok j =>
    match stringifyObj j with
    | .error e => .error e
    | .ok j2 => .ok (codec.dumps j2)

/-- `destringify`: parse (a failure is wrapped into a `MessageError`), then
`dejsonify`. -/
def destringify (env : Env) (codec : JsonCodec) (s : Codepoints) :
    Except MsgError Message :=
  match codec.loads s with
  | none => .error .invalidJSON
  | some o => dejsonify env o

/-- `Message.serialize`: UTF-8 encode the stringified text. -/
def serialize (env : Env) (codec : JsonCodec) (m : Message)
    (compression : Option Codepoints) : Except MsgError Bytes :=
  match stringify env codec m compression with
  | .error e => .error e
  | .ok s => .ok (utf8EncodeStr s)

/-- `deserialize`: UTF-8 decode (a failure is wrapped into a
`MessageError`), then `destringify`. -/
def deserialize (env : Env) (codec : JsonCodec) (b : Bytes) :
    Except MsgError Message :=
  match utf8Dec b with
  | none => .error .invalidEncoding
  | some s => destringify env codec s

/-! ## The checksum -/

/-- Sort a list of key strings as Python `sorted` does: lexicographically by
code point. -/
def cpLeb : Codepoints → Codepoints → Bool
  | [], _ => true
  | _ :: _, [] => false
  | a :: as, b :: bs => if a < b then true else if b < a then false else cpLeb as bs

/-- The sorted key list of a header. -/
def sortedKeys (h : Header) : List Codepoints :=
  List.insertionSort (fun a b => cpLeb a b = true) (h.map Prod.fst)

/-- The canonical header string: `key:value\n` for each key in sorted order
(58 is `':'`, 10 is `'\n'`). -/
def canonHeader (h : Header) : Codepoints :=
  ((sortedKeys h).map (fun k => k ++ [58] ++ (hLookup k h).getD [] ++ [10])).flatten

/-- `Message.md5`, parameterised by the abstract 128-bit hex digest
`digest : Bytes → Codepoints` (`md5(x).hexdigest()`).  Hashing a text body
UTF-8 encodes it first; hashing a byte body with the text flag set (or the
reverse) raises in Python and is `none` here.  49/48 are `'1'`/`'0'`. -/
def Message.md5 (digest : Bytes → Codepoints) (m : Message) : Option Codepoints :=
  let headerHex := digest (utf8EncodeStr (canonHeader m.header))
  let bodyHex? : Option Codepoints :=
    if m.isText then
      match m.body with
      | .str s => some (digest (utf8EncodeStr s))
      | .bytes _ => none
    else
      match m.body with
      | .bytes b => some (digest b)
      | .str _ => none
  bodyHex?.map (fun bodyHex =>
    digest (utf8EncodeStr ((if m.isText then [49] else [48]) ++ headerHex ++ bodyHex)))

/-! ## Well-formedness predicates used by the theorems -/

/-- Well-formed string values: text has encodable code points, bytes are
below 256 (guaranteed by Python's `str` and `bytes` types). -/
def WFBody : PyStr → Prop
  | .str s => ∀ c ∈ s, ValidCp c
  | .bytes b => ∀ x ∈ b, x < 256

/-- The environment is shaped like `_COMPRESSORS`: unique names drawn from
the supported vocabulary. -/
def EnvWF (env : Env) : Prop :=
  env.names.Nodup ∧ ∀ n ∈ env.names, n ∈ SUPPORTED

/-- Every installed decompressor inverts its compressor (the library
contract the round-trip relies on). -/
def EnvInv (env : Env) : Prop :=
  ∀ p ∈ env.compressors, ∀ b : Bytes, p.2.2 (p.2.1 b) = b

/-- Every installed compressor produces byte values below 256. -/
def EnvBytes (env : Env) : Prop :=
  ∀ p ∈ env.compressors, ∀ b : Bytes, (∀ x ∈ b, x < 256) →
    ∀ x ∈ p.2.1 b, x < 256

/-! ## UTF-8 lemmas -/

theorem utf8EncodeCp_lt256 (c : Nat) (h : ValidCp c) :
    ∀ x ∈ utf8EncodeCp c, x < 256 := by
  unfold ValidCp at h
  unfold utf8EncodeCp
  split_ifs with h1 h2 h3 <;> intro x hx <;> simp only [List.mem_cons,
    List.mem_singleton, List.not_mem_nil, or_false] at hx <;> omega

theorem utf8EncodeStr_lt256 (s : Codepoints) (h : ∀ c ∈ s, ValidCp c) :
    ∀ x ∈ utf8EncodeStr s, x < 256 := by
  intro x hx
  simp only [utf8EncodeStr, List.mem_flatten, List.mem_map] at hx
  obtain ⟨l, ⟨c, hc, rfl⟩, hxl⟩ := hx
  exact utf8EncodeCp_lt256 c (h c hc) x hxl

theorem utf8One_some {b c : Nat} {t rest : Bytes}
    (h : utf8One b t = some (c, rest)) :
    utf8EncodeCp c ++ rest = b :: t ∧ rest.length ≤ t.length := by
  unfold utf8One utf8Cont1 utf8Cont2 utf8Cont3 at h
  repeat' split at h
  all_goals simp only [Option.some.injEq, Prod.mk.injEq, reduceCtorEq] at h
  all_goals obtain ⟨rfl, rfl⟩ := h
  all_goals refine ⟨?_, by (try simp only [List.length_cons]); omega⟩
  all_goals unfold utf8EncodeCp
  all_goals split_ifs
  all_goals first
    | (exfalso; omega)
    | (simp_all only [List.cons_append, List.nil_append, List.cons.injEq,
        and_true] <;> try omega)

theorem utf8One_length {b c : Nat} {t rest : Bytes}
    (h : utf8One b t = some (c, rest)) : rest.length ≤ t.length :=
  (utf8One_some h).2

theorem utf8DecF_irrel : ∀ (f1 f2 : Nat) (l : Bytes),
    l.length ≤ f1 → l.length ≤ f2 → utf8DecF f1 l = utf8DecF f2 l := by
  intro f1
  induction f1 with
  | zero =>
    intro f2 l h1 _
    have : l = [] := by cases l <;> simp_all
    subst this
    cases f2 <;> rfl
  | succ f1 ih =>
    intro f2 l h1 h2
    cases l with
    | nil => cases f2 <;> rfl
    | cons b t =>
      cases f2 with
      | zero => simp at h2
      | succ f2 =>
        cases e : utf8One b t with
        | none => simp only [utf8DecF, e, Option.none_bind]
        | some cr =>
          obtain ⟨c, rest⟩ := cr
          have hr := utf8One_length e
          simp only [utf8DecF, e, Option.some_bind]
          simp only [List.length_cons] at h1 h2
          rw [ih f2 rest (by omega) (by omega)]

theorem utf8Dec_cons_some {b c : Nat} {t rest : Bytes}
    (e : utf8One b t = some (c, rest)) :
    utf8Dec (b :: t) = (utf8Dec rest).map (c :: ·) := by
  unfold utf8Dec
  rw [show (b :: t).length = t.length + 1 from rfl]
  simp only [utf8DecF, e, Option.some_bind]
  rw [utf8DecF_irrel t.length rest.length rest (utf8One_length e) le_rfl]

theorem utf8Dec_cons_none {b : Nat} {t : Bytes} (e : utf8One b t = none) :
    utf8Dec (b :: t) = none := by
  unfold utf8Dec
  rw [show (b :: t).length = t.length + 1 from rfl]
  simp only [utf8DecF, e, Option.none_bind]

theorem utf8One_encodeCp (c : Nat) (h : ValidCp c) (r : Bytes) :
    ∃ b t, utf8EncodeCp c ++ r = b :: t ∧ utf8One b t = some (c, r) := by
  unfold ValidCp at h
  by_cases h1 : c < 0x80
  · refine ⟨c, r, by rw [utf8EncodeCp, if_pos h1]; rfl, ?_⟩
    unfold utf8One
    rw [if_pos h1]
  · by_cases h2 : c < 0x800
    · refine ⟨0xc0 + c / 64, (0x80 + c % 64) :: r, by
        rw [utf8EncodeCp, if_neg h1, if_pos h2]; rfl, ?_⟩
      unfold utf8One
      rw [if_neg (by omega), if_neg (by omega), if_pos (by omega)]
      simp only [utf8Cont1]
      rw [if_pos (by omega : 0x80 ≤ 0x80 + c % 64 ∧ 0x80 + c % 64 < 0xc0)]
      simp only [Option.some.injEq, Prod.mk.injEq, and_true]
      omega
    · by_cases h3 : c < 0x10000
      · refine ⟨0xe0 + c / 4096, (0x80 + c / 64 % 64) :: (0x80 + c % 64) :: r, by
          rw [utf8EncodeCp, if_neg h1, if_neg h2, if_pos h3]; rfl, ?_⟩
        unfold utf8One
        rw [if_neg (by omega), if_neg (by omega), if_neg (by omega),
          if_pos (by omega)]
        simp only [utf8Cont2]
        rw [if_pos (by omega : 0x80 ≤ 0x80 + c / 64 % 64 ∧
          0x80 + c / 64 % 64 < 0xc0 ∧ 0x80 ≤ 0x80 + c % 64 ∧
          0x80 + c % 64 < 0xc0)]
        rw [if_pos (by omega)]
        simp only [Option.some.injEq, Prod.mk.injEq, and_true]
        omega
      · refine ⟨0xf0 + c / 262144,
          (0x80 + c / 4096 % 64) :: (0x80 + c / 64 % 64) :: (0x80 + c % 64) :: r, by
          rw [utf8EncodeCp, if_neg h1, if_neg h2, if_neg h3]; rfl, ?_⟩
        unfold utf8One
        rw [if_neg (by omega), if_neg (by omega), if_neg (by omega),
          if_neg (by omega), if_pos (by omega)]
        simp only [utf8Cont3]
        rw [if_pos (by omega : 0x80 ≤ 0x80 + c / 4096 % 64 ∧
          0x80 + c / 4096 % 64 < 0xc0 ∧ 0x80 ≤ 0x80 + c / 64 % 64 ∧
          0x80 + c / 64 % 64 < 0xc0 ∧ 0x80 ≤ 0x80 + c % 64 ∧
          0x80 + c % 64 < 0xc0)]
        rw [if_pos (by omega)]
        simp only [Option.some.injEq, Prod.mk.injEq, and_true]
        omega

theorem utf8Dec_encodeCp (c : Nat) (h : ValidCp c) (r : Bytes) :
    utf8Dec (utf8EncodeCp c ++ r) = (utf8Dec r).map (c :: ·) := by
  obtain ⟨b, t, he, hone⟩ := utf8One_encodeCp c h r
  rw [he, utf8Dec_cons_some hone]

theorem utf8EncodeStr_cons (c : Nat) (t : Codepoints) :
    utf8EncodeStr (c :: t) = utf8EncodeCp c ++ utf8EncodeStr t := by
  simp [utf8EncodeStr]

theorem utf8Dec_encodeStr (s : Codepoints) (h : ∀ c ∈ s, ValidCp c) :
    utf8Dec (utf8EncodeStr s) = some s := by
  induction s with
  | nil => rfl
  | cons c t ih =>
    rw [utf8EncodeStr_cons, utf8Dec_encodeCp c (h c (by simp)),
      ih (fun x hx => h x (by simp [hx]))]
    rfl

theorem utf8EncodeStr_dec : ∀ (n : Nat) (b : Bytes), b.length ≤ n →
    ∀ s, utf8Dec b = some s → utf8EncodeStr s = b := by
  intro n
  induction n with
  | zero =>
    intro b hb s h
    have : b = [] := by cases b <;> simp_all
    subst this
    have : s = [] := by simpa [utf8Dec, utf8DecF] using h.symm
    subst this
    rfl
  | succ n ih =>
    intro b hb s h
    cases b with
    | nil =>
      have : s = [] := by simpa [utf8Dec, utf8DecF] using h.symm
      subst this
      rfl
    | cons b0 t =>
      cases e : utf8One b0 t with
      | none => rw [utf8Dec_cons_none e] at h; exact absurd h (by simp)
      | some cr =>
        obtain ⟨c, rest⟩ := cr
        rw [utf8Dec_cons_some e] at h
        cases e2 : utf8Dec rest with
        | none => rw [e2] at h; exact absurd h (by simp)
        | some s1 =>
          rw [e2] at h
          obtain rfl : c :: s1 = s := by simpa using h
          obtain ⟨henc, hlen⟩ := utf8One_some e
          have hrest : utf8EncodeStr s1 = rest := by
            refine ih rest ?_ s1 e2
            simp only [List.length_cons] at hb
            omega
          rw [utf8EncodeStr_cons, hrest, henc]

theorem utf8Dec_ascii (b : Bytes) (h : ∀ x ∈ b, x < 0x80) :
    utf8Dec b = some b := by
  induction b with
  | nil => rfl
  | cons x t ih =>
    have hx : x < 0x80 := h x (by simp)
    have e : utf8One x t = some (x, t) := by
      unfold utf8One
      rw [if_pos hx]
    rw [utf8Dec_cons_some e, ih (fun y hy => h y (by simp [hy]))]
    rfl

theorem utf8EncodeStr_ascii (s : Codepoints) (h : ∀ c ∈ s, c < 0x80) :
    utf8EncodeStr s = s := by
  induction s with
  | nil => rfl
  | cons c t ih =>
    rw [utf8EncodeStr_cons, ih (fun x hx => h x (by simp [hx]))]
    rw [show utf8EncodeCp c = [c] by rw [utf8EncodeCp, if_pos (h c (by simp))]]
    rfl

/-! ## Base64 lemmas -/

theorem b64Index_char (i : Nat) (h : i < 64) : b64Index (b64Char i) = some i := by
  interval_cases i <;> rfl

theorem b64Char_ne61 (i : Nat) : b64Char i ≠ 61 := by
  unfold b64Char
  split_ifs <;> omega

theorem b64Char_lt128 (i : Nat) : b64Char i < 0x80 := by
  unfold b64Char
  split_ifs <;> omega

theorem b64encode_lt128 : ∀ (b : Bytes), ∀ x ∈ b64encode b, x < 0x80
  | b1 :: b2 :: b3 :: t => by
    intro x hx
    simp only [b64encode, List.mem_cons] at hx
    rcases hx with rfl | rfl | rfl | rfl | hx
    · exact b64Char_lt128 _
    · exact b64Char_lt128 _
    · exact b64Char_lt128 _
    · exact b64Char_lt128 _
    · exact b64encode_lt128 t x hx
  | [b1, b2] => by
    intro x hx
    simp only [b64encode, List.mem_cons, List.not_mem_nil, or_false] at hx
    rcases hx with rfl | rfl | rfl | rfl
    · exact b64Char_lt128 _
    · exact b64Char_lt128 _
    · exact b64Char_lt128 _
    · omega
  | [b1] => by
    intro x hx
    simp only [b64encode, List.mem_cons, List.not_mem_nil, or_false] at hx
    rcases hx with rfl | rfl | rfl | rfl
    · exact b64Char_lt128 _
    · exact b64Char_lt128 _
    · omega
    · omega
  | [] => by
    intro x hx
    simp [b64encode] at hx

theorem b64decode_encode : ∀ (b : Bytes), (∀ x ∈ b, x < 256) →
    b64decode (b64encode b) = some b
  | [], _ => rfl
  | [b1], h => by
    have h1 : b1 < 256 := h b1 (by simp)
    show b64decode [b64Char (b1 / 4), b64Char (b1 % 4 * 16), 61, 61] = some [b1]
    simp only [b64decode, b64Index_char (b1 / 4) (by omega),
      b64Index_char (b1 % 4 * 16) (by omega), Option.some_bind]
    simp only [and_self, if_true, Option.some.injEq, List.cons.injEq, and_true]
    omega
  | [b1, b2], h => by
    have h1 : b1 < 256 := h b1 (by simp)
    have h2 : b2 < 256 := h b2 (by simp)
    show b64decode [b64Char (b1 / 4), b64Char (b1 % 4 * 16 + b2 / 16),
      b64Char (b2 % 16 * 4), 61] = some [b1, b2]
    simp only [b64decode, b64Index_char (b1 / 4) (by omega),
      b64Index_char (b1 % 4 * 16 + b2 / 16) (by omega),
      b64Index_char (b2 % 16 * 4) (by omega), Option.some_bind]
    simp only [and_self, if_true]
    rw [if_neg (b64Char_ne61 (b2 % 16 * 4))]
    simp only [Option.some.injEq, List.cons.injEq, and_true]
    omega
  | b1 :: b2 :: b3 :: t, h => by
    have h1 : b1 < 256 := h b1 (by simp)
    have h2 : b2 < 256 := h b2 (by simp)
    have h3 : b3 < 256 := h b3 (by simp)
    have ih := b64decode_encode t (fun x hx => h x (by simp [hx]))
    show b64decode (b64Char (b1 / 4) :: b64Char (b1 % 4 * 16 + b2 / 16) ::
      b64Char (b2 % 16 * 4 + b3 / 64) :: b64Char (b3 % 64) :: b64encode t) =
      some (b1 :: b2 :: b3 :: t)
    simp only [b64decode, b64Index_char (b1 / 4) (by omega),
      b64Index_char (b1 % 4 * 16 + b2 / 16) (by omega),
      b64Index_char (b2 % 16 * 4 + b3 / 64) (by omega),
      b64Index_char (b3 % 64) (by omega), Option.some_bind]
    rw [ih]
    rw [if_neg (b64Char_ne61 (b2 % 16 * 4 + b3 / 64)),
      if_neg (b64Char_ne61 (b3 % 64))]
    simp only [Option.map_some', Option.some.injEq, List.cons.injEq, and_true]
    omega

/-! ## Key sorting: totality, transitivity, antisymmetry, permutation -/

theorem cpLeb_total : ∀ a b : Codepoints, cpLeb a b = true ∨ cpLeb b a = true
  | [], _ => by left; rfl
  | _ :: _, [] => by right; rfl
  | a :: as, b :: bs => by
    rcases Nat.lt_trichotomy a b with h | rfl | h
    · left; simp [cpLeb, h]
    · have := cpLeb_total as bs
      simpa [cpLeb] using this
    · right; simp [cpLeb, h]

theorem cpLeb_trans : ∀ a b c : Codepoints,
    cpLeb a b = true → cpLeb b c = true → cpLeb a c = true
  | [], _, _ => by simp [cpLeb]
  | _ :: _, [], _ => by simp [cpLeb]
  | _ :: _, _ :: _, [] => by simp [cpLeb]
  | a :: as, b :: bs, c :: cs => by
    intro h1 h2
    rcases Nat.lt_trichotomy a b with hab | rfl | hab
    · rcases Nat.lt_trichotomy b c with hbc | rfl | hbc
      · simp [cpLeb, show a < c by omega]
      · simp [cpLeb, hab]
      · simp [cpLeb, show ¬ b < c by omega, hbc] at h2
    · rcases Nat.lt_trichotomy a c with hac | rfl | hac
      · simp [cpLeb, hac]
      · simp only [cpLeb, lt_irrefl, if_false] at h1 h2 ⊢
        exact cpLeb_trans as bs cs h1 h2
      · simp [cpLeb, show ¬ a < c by omega, hac] at h2
    · simp [cpLeb, show ¬ a < b by omega, hab] at h1

theorem cpLeb_antisymm : ∀ a b : Codepoints,
    cpLeb a b = true → cpLeb b a = true → a = b
  | [], [] => by simp
  | [], _ :: _ => by simp [cpLeb]
  | _ :: _, [] => by simp [cpLeb]
  | a :: as, b :: bs => by
    intro h1 h2
    rcases Nat.lt_trichotomy a b with hab | rfl | hab
    · simp [cpLeb, show ¬ b < a by omega, hab] at h2
    · simp only [cpLeb, lt_irrefl, if_false] at h1 h2
      rw [cpLeb_antisymm as bs h1 h2]
    · simp [cpLeb, show ¬ a < b by omega, hab] at h1

instance : IsTotal Codepoints (fun a b => cpLeb a b = true) := ⟨cpLeb_total⟩

instance : IsTrans Codepoints (fun a b => cpLeb a b = true) := ⟨cpLeb_trans⟩

instance : IsAntisymm Codepoints (fun a b => cpLeb a b = true) := ⟨cpLeb_antisymm⟩

theorem sortedKeys_perm {h1 h2 : Header} (hp : h1.Perm h2) :
    sortedKeys h1 = sortedKeys h2 := by
  apply List.eq_of_perm_of_sorted
    ((List.perm_insertionSort _ _).trans
      ((hp.map Prod.fst).trans (List.perm_insertionSort _ _).symm))
    (List.sorted_insertionSort _ _) (List.sorted_insertionSort _ _)

theorem hLookup_perm {h1 h2 : Header} (hp : h1.Perm h2) :
    (h1.map Prod.fst).Nodup → ∀ k, hLookup k h1 = hLookup k h2 := by
  induction hp with
  | nil => intro _ _; rfl
  | cons x _ ih =>
    intro hnd k
    simp only [hLookup]
    by_cases hx : x.1 = k
    · rw [if_pos hx, if_pos hx]
    · rw [if_neg hx, if_neg hx]
      exact ih (by simpa using (List.nodup_cons.mp (by simpa using hnd)).2) k
  | swap x y l =>
    intro hnd k
    have hxy : y.1 ≠ x.1 := by
      simp only [List.map_cons, List.nodup_cons, List.mem_cons] at hnd
      exact fun e => hnd.1 (Or.inl e)
    simp only [hLookup]
    by_cases hx : x.1 = k <;> by_cases hy : y.1 = k <;>
      simp [hx, hy]
    exact absurd (hy.trans hx.symm) hxy
  | trans p1 _ ih1 ih2 =>
    intro hnd k
    rw [ih1 hnd k, ih2 (((p1.map Prod.fst).nodup_iff).mp hnd) k]

theorem canonHeader_perm {h1 h2 : Header} (hp : h1.Perm h2)
    (hnd : (h1.map Prod.fst).Nodup) : canonHeader h1 = canonHeader h2 := by
  unfold canonHeader
  rw [sortedKeys_perm hp]
  congr 1
  refine List.map_congr_left (fun k _ => ?_)
  rw [hLookup_perm hp hnd k]

theorem hLookup_self {h : Header} (hnd : (h.map Prod.fst).Nodup) :
    ∀ kv ∈ h, hLookup kv.1 h = some kv.2 := by
  induction h with
  | nil => intro kv hkv; simp at hkv
  | cons x t ih =>
    intro kv hkv
    simp only [List.map_cons, List.nodup_cons] at hnd
    rcases List.mem_cons.mp hkv with rfl | hkv
    · simp [hLookup]
    · have hne : x.1 ≠ kv.1 := by
        intro e
        exact hnd.1 (e ▸ List.mem_map_of_mem Prod.fst hkv)
      simp only [hLookup, if_neg hne]
      exact ih hnd.2 kv hkv

theorem beq_refl (m : Message) (hnd : (m.header.map Prod.fst).Nodup) :
    m.beq m = true := by
  unfold Message.beq
  rw [if_neg (by simp)]
  simp only [List.all_eq_true, decide_eq_true_eq]
  exact fun kv hkv => hLookup_self hnd kv hkv

/-! ## splitPlus / joinPlus -/

theorem splitPlus_ne_nil : ∀ t : Codepoints, splitPlus t ≠ []
  | [] => by simp [splitPlus]
  | c :: cs => by
    simp only [splitPlus]
    split <;> simp

theorem splitPlus_no43 : ∀ t : Codepoints, 43 ∉ t → splitPlus t = [t]
  | [] => fun _ => rfl
  | c :: cs => fun h => by
    simp only [splitPlus]
    rw [splitPlus_no43 cs (fun hm => h (by simp [hm]))]
    rw [if_neg (fun hc : c = 43 => h (by simp [hc]))]
    rfl

theorem splitPlus_sep : ∀ t r : Codepoints, 43 ∉ t →
    splitPlus (t ++ 43 :: r) = t :: splitPlus r
  | [], r, _ => by
    simp [splitPlus]
  | c :: cs, r, h => by
    rw [List.cons_append]
    simp only [splitPlus]
    rw [splitPlus_sep cs r (fun hm => h (by simp [hm]))]
    rw [if_neg (fun hc : c = 43 => h (by simp [hc]))]
    rfl

theorem splitPlus_join : ∀ ts : List Codepoints, ts ≠ [] →
    (∀ t ∈ ts, 43 ∉ t) → splitPlus (joinPlus ts) = ts
  | [], h, _ => absurd rfl h
  | [t], _, hn => by
    simp only [joinPlus]
    exact splitPlus_no43 t (hn t (by simp))
  | t :: t2 :: ts, _, hn => by
    simp only [joinPlus]
    rw [splitPlus_sep t (joinPlus (t2 :: ts)) (hn t (by simp))]
    rw [splitPlus_join (t2 :: ts) (by simp) (fun x hx => hn x (by simp [hx]))]

/-! ## Decompression fold -/

theorem foldDecomp_skip :
    ∀ (l : List (Codepoints × (Bytes → Bytes) × (Bytes → Bytes)))
      (tokens : List Codepoints) (b : Bytes), (∀ p ∈ l, p.1 ∉ tokens) →
      l.foldl (fun x p => if p.1 ∈ tokens then p.2.2 x else x) b = b
  | [], _, _, _ => rfl
  | q :: l, tokens, b, h => by
    simp only [List.foldl_cons]
    rw [if_neg (h q (by simp))]
    exact foldDecomp_skip l tokens b (fun p hp => h p (by simp [hp]))

theorem foldDecomp_single :
    ∀ (l : List (Codepoints × (Bytes → Bytes) × (Bytes → Bytes)))
      (tokens : List Codepoints) (c : Codepoints)
      (q : Codepoints × (Bytes → Bytes) × (Bytes → Bytes)) (b : Bytes),
      l.find? (fun p => p.1 = c) = some q → (l.map (·.1)).Nodup →
      (∀ p ∈ l, (p.1 ∈ tokens ↔ p.1 = c)) →
      l.foldl (fun x p => if p.1 ∈ tokens then p.2.2 x else x) b = q.2.2 b
  | [], _, _, _, _, hf, _, _ => by simp at hf
  | q0 :: l, tokens, c, q, b, hf, hnd, htok => by
    simp only [List.map_cons, List.nodup_cons] at hnd
    by_cases h0 : q0.1 = c
    · rw [List.find?_cons_of_pos _ (by simpa using h0)] at hf
      have hq : q0 = q := by simpa using hf
      subst hq
      simp only [List.foldl_cons]
      rw [if_pos ((htok q0 (by simp)).mpr h0)]
      refine foldDecomp_skip l tokens (q0.2.2 b) (fun p hp hmem => ?_)
      have hpc : p.1 = c := (htok p (by simp [hp])).mp hmem
      exact hnd.1 ((hpc.trans h0.symm) ▸ List.mem_map_of_mem (·.1) hp)
    · rw [List.find?_cons_of_neg _ (by simpa using h0)] at hf
      simp only [List.foldl_cons]
      rw [if_neg (fun hmem => h0 ((htok q0 (by simp)).mp hmem))]
      exact foldDecomp_single l tokens c q b hf hnd.2
        (fun p hp => htok p (by simp [hp]))

/-! ## Small facts about the token vocabulary and environments -/

theorem supported_no43 : ∀ t ∈ SUPPORTED, 43 ∉ t := by decide

theorem supported_ne_special :
    ∀ t ∈ SUPPORTED, t ≠ tokUtf8 ∧ t ≠ tokBase64 ∧ t ≠ [] := by decide

theorem supported_sub_available : ∀ t ∈ SUPPORTED, t ∈ AVAILABLE_DECODING := by
  decide

theorem isPrefixOf_self : ∀ l : Codepoints, l.isPrefixOf l = true
  | [] => rfl
  | c :: t => by simp [List.isPrefixOf, isPrefixOf_self t]

theorem compressionMatch_of_mem {env : Env} {c : Codepoints}
    (hc : c ∈ env.names) : compressionMatch env c = true := by
  unfold compressionMatch
  refine Bool.or_eq_true_iff.mpr (Or.inr ?_)
  exact List.any_eq_true.mpr ⟨c, hc, isPrefixOf_self c⟩

theorem exists_find?_of_mem_names {env : Env} {c : Codepoints}
    (hc : c ∈ env.names) :
    ∃ q, env.compressors.find? (fun p => p.1 = c) = some q ∧ q.1 = c ∧
      q ∈ env.compressors := by
  obtain ⟨p, hp, hpc⟩ := List.mem_map.mp hc
  have hsome : (env.compressors.find? (fun p => p.1 = c)).isSome := by
    rw [List.find?_isSome]
    exact ⟨p, hp, by simp [hpc]⟩
  obtain ⟨q, hq⟩ := Option.isSome_iff_exists.mp hsome
  refine ⟨q, hq, ?_, List.mem_of_find?_eq_some hq⟩
  have := List.find?_some hq
  simpa using this

/-- A concrete one-compressor environment (identity functions stand in for
the external zlib implementation where its behaviour does not matter). -/
def envId : Env := ⟨[(tokZlib, fun b => b, fun b => b)]⟩

/-- A concrete environment whose compressor shrinks every input to one byte
(a stand-in for zlib on highly compressible input). -/
def envShrink : Env := ⟨[(tokZlib, fun _ => [0], fun _ => [])]⟩

/-! # Claim theorems -/

/-- C7 counterexample: the default-constructed message reports
`is_text() = false`, not `true` as claimed: `DEFAULT_BODY` is the *byte*
string `''.encode()`, and the body setter therefore computes a false text
flag. -/
theorem c7_counterexample :
    Message.isText defaultMessage = false ∧ defaultMessage.body = .bytes [] :=
  ⟨rfl, rfl⟩

/-- C7 (amended): a `Message()` constructed with no arguments has a present,
empty header mapping and an empty body, but the body is the empty *byte*
string and `is_text()` returns `false`. -/
theorem c7_default_state :
    defaultMessage.header = [] ∧ defaultMessage.body = .bytes [] ∧
      Message.isText defaultMessage = false :=
  ⟨rfl, rfl, rfl⟩

/-- C6 counterexample: `__eq__` only checks that `self`'s header pairs occur
in `other`'s header, so a message with an empty header compares equal to one
with an extra header field, while the reverse comparison fails — the claimed
"same set of pairs" equality and its symmetry are both false. -/
theorem c6_counterexample :
    Message.beq (Message.init (.str [97]) (some []))
      (Message.init (.str [97]) (some [([104], [105])])) = true ∧
    Message.beq (Message.init (.str [97]) (some [([104], [105])]))
      (Message.init (.str [97]) (some [])) = false := by
  decide

/-- C6 (amended): two messages compare equal exactly when the text flags
match, the bodies match, and every key/value pair of the *left* message's
header is found in the right one's header; extra keys on the right are not
detected, so the relation is one-sided containment, not symmetric set
equality. -/
theorem c6_eq_characterization (a b : Message) :
    Message.beq a b = true ↔
      a.text = b.text ∧ a.body = b.body ∧
      ∀ kv ∈ a.header, hLookup kv.1 b.header = some kv.2 := by
  unfold Message.beq
  split_ifs with h
  · constructor
    · intro hh; exact absurd hh (by simp)
    · rintro ⟨h1, h2, -⟩
      rcases h with h | h <;> exact absurd (by assumption) h
  · push_neg at h
    obtain ⟨h1, h2⟩ := h
    simp only [List.all_eq_true, decide_eq_true_eq]
    exact ⟨fun hall => ⟨h1, h2, hall⟩, fun ⟨_, _, hall⟩ => hall⟩

/-- C8 counterexample: the public `text` property setter assigns the flag
without touching the body, so a text-bodied message can be put in a state
where the flag disagrees with the body — the claimed impossibility of
desynchronisation through the public contract is false. -/
theorem c8_counterexample :
    ¬ (Message.setText false (Message.init (.str [97]) none)).Consistent ∧
    (Message.setText false (Message.init (.str [97]) none)).text = false ∧
    (Message.setText false (Message.init (.str [97]) none)).body = .str [97] := by
  refine ⟨by decide, rfl, rfl⟩

/-- C8 (amended): assigning a body (via the setter or the constructor)
always recomputes the flag and re-establishes consistency, and assigning a
header preserves it; only the public `text` setter can desynchronise the
pair. -/
theorem c8_body_assignment_consistency (m : Message) (v : Option PyStr)
    (hdr : Option Header) (b : PyStr) (hm : m.Consistent) :
    (Message.setBody v m).Consistent ∧ (Message.setHeader hdr m).Consistent ∧
      (Message.init b hdr).Consistent := by
  refine ⟨rfl, hm, rfl⟩

/-- C8 witness. -/
theorem c8_body_assignment_consistency_witness :
    (Message.setBody none defaultMessage).Consistent ∧
      (Message.setHeader none defaultMessage).Consistent ∧
      (Message.init (.str [97]) none).Consistent :=
  c8_body_assignment_consistency defaultMessage none none (.str [97])
    (by decide)

/-- C9: `jsonify` of a message with an empty (falsy) body returns before any
body handling: the object carries at most the `header` field, whatever the
text flag; and `jsonify(Message())` is the empty object. -/
theorem c9_empty_body (env : Env) (m : Message) (compression : Option Codepoints)
    (hbody : pyTruthy m.body = false)
    (hopt : ∀ c, compression = some c → compressionMatch env c = true) :
    jsonify env m compression =
      .ok ⟨if m.header.isEmpty then none else some m.header, none, none, none⟩ ∧
    jsonify env defaultMessage none = .ok ⟨none, none, none, none⟩ := by
  refine ⟨?_, rfl⟩
  cases compression with
  | none =>
    simp only [jsonify, jsonifyBody]
    rw [if_pos (by simp [hbody])]
  | some c =>
    simp only [jsonify, jsonifyBody]
    rw [if_neg (by simp [hopt c rfl])]
    rw [if_pos (by simp [hbody])]

/-- C9 witness. -/
theorem c9_empty_body_witness :
    jsonify envId defaultMessage none = .ok ⟨none, none, none, none⟩ :=
  (c9_empty_body envId defaultMessage none (by decide)
    (fun c h => by cases h)).2

/-! ## Branch lemmas for `jsonify` -/

theorem jsonifyBody_text_nocomp (env : Env) (m : Message) (s : Codepoints)
    (hb : m.body = .str s) (ht : m.text = true) (htr : pyTruthy m.body = true) :
    jsonifyBody env m none =
      .ok ⟨if m.header.isEmpty then none else some m.header, some m.body,
        some true, none⟩ := by
  obtain ⟨mb, mh, mt⟩ := m
  simp only at hb ht
  subst hb ht
  simp only [jsonifyBody]
  rw [if_neg (by simp_all [pyTruthy])]
  simp

theorem jsonifyBody_text_comp (env : Env) (m : Message) (s c : Codepoints)
    (hb : m.body = .str s) (ht : m.text = true) (htr : pyTruthy m.body = true) :
    jsonifyBody env m (some c) =
      match compressIt env c (utf8EncodeStr s) with
      | .error e => .error e
      | .ok none =>
        .ok ⟨if m.header.isEmpty then none else some m.header, some m.body,
          some true, none⟩
      | .ok (some tmp) =>
        if base64Needed tmp then
          .ok ⟨if m.header.isEmpty then none else some m.header,
            some (.bytes (b64encode tmp)), some true,
            some (joinPlus [tokUtf8, c, tokBase64])⟩
        else
          .ok ⟨if m.header.isEmpty then none else some m.header,
            some (.bytes tmp), some true, some (joinPlus [tokUtf8, c])⟩ := by
  obtain ⟨mb, mh, mt⟩ := m
  simp only at hb ht
  subst hb ht
  simp only [jsonifyBody]
  rw [if_neg (by simp_all [pyTruthy])]
  simp

theorem jsonifyBody_binary_none (env : Env) (m : Message) (bb : Bytes)
    (hb : m.body = .bytes bb) (ht : m.text = false)
    (htr : pyTruthy m.body = true) :
    jsonifyBody env m none =
      .ok (binaryOut (if m.header.isEmpty then none else some m.header)
        [] bb) := by
  obtain ⟨mb, mh, mt⟩ := m
  simp only at hb ht
  subst hb ht
  simp only [jsonifyBody]
  rw [if_neg (by simp_all [pyTruthy])]
  simp

theorem jsonifyBody_binary_some (env : Env) (m : Message) (bb c : Bytes)
    (hb : m.body = .bytes bb) (ht : m.text = false)
    (htr : pyTruthy m.body = true) :
    jsonifyBody env m (some c) =
      match compressIt env c bb with
      | .error e => .error e
      | .ok none =>
        .ok (binaryOut (if m.header.isEmpty then none else some m.header)
          [] bb)
      | .ok (some tmp) =>
        .ok (binaryOut (if m.header.isEmpty then none else some m.header)
          [c] tmp) := by
  obtain ⟨mb, mh, mt⟩ := m
  simp only at hb ht
  subst hb ht
  simp only [jsonifyBody]
  rw [if_neg (by simp_all [pyTruthy])]
  simp

theorem compressIt_small (env : Env) (c : Codepoints) (b : Bytes)
    (h : b.length < 255) : compressIt env c b = .ok none := by
  unfold compressIt
  rw [if_pos h]

theorem compressIt_large (env : Env) (c : Codepoints) (b : Bytes)
    (q : Codepoints × (Bytes → Bytes) × (Bytes → Bytes))
    (h : ¬ b.length < 255)
    (hf : env.compressors.find? (fun p => p.1 = c) = some q) :
    compressIt env c b =
      if 10 * (q.2.1 b).length < 9 * b.length then .ok (some (q.2.1 b))
      else .ok none := by
  simp only [compressIt, hf]
  rw [if_neg h]

theorem jsonify_some (env : Env) (m : Message) (c : Codepoints)
    (hc : compressionMatch env c = true) (hcne : c ≠ []) :
    jsonify env m (some c) = jsonifyBody env m (some c) := by
  simp only [jsonify]
  rw [if_neg (by simp [hc]), if_neg hcne]

/-- C10 counterexample: the compression-option validation is a *prefix*
match against the *installed* names, not a membership test of the fixed
vocabulary: with zlib installed, the unrecognized token "zlibX" passes
validation and `jsonify` succeeds, while the recognized-but-not-installed
token "lz4" is rejected with `UnsupportedCompression` instead of being
deferred. -/
theorem c10_counterexample :
    jsonify envId (Message.init (.str [104]) none)
      (some [122, 108, 105, 98, 88]) =
      .ok ⟨none, some (.str [104]), some true, none⟩ ∧
    [122, 108, 105, 98, 88] ∉ SUPPORTED ∧
    jsonify envId (Message.init (.str [104]) none) (some tokLz4) =
      .error (.unsupportedCompression tokLz4) ∧
    tokLz4 ∈ SUPPORTED := by
  refine ⟨rfl, by decide, rfl, by decide⟩

theorem compressIt_ne_unsupported (env : Env) (cc : Codepoints) (b : Bytes)
    (c : Codepoints) :
    compressIt env cc b ≠ .error (.unsupportedCompression c) := by
  intro h
  unfold compressIt at h
  repeat' split at h
  all_goals simp_all

theorem jsonifyBody_ne_unsupported (env : Env) (m : Message)
    (comp : Option Codepoints) (c : Codepoints) :
    jsonifyBody env m comp ≠ .error (.unsupportedCompression c) := by
  intro h
  cases comp with
  | none =>
    unfold jsonifyBody at h
    repeat' split at h
    all_goals simp_all
  | some cc =>
    unfold jsonifyBody at h
    repeat' split at h
    all_goals simp_all [compressIt_ne_unsupported]

/-- C10 (amended): `jsonify` fails with `UnsupportedCompression` exactly
when the requested token fails the installed-compressor regex
`^(n1|n2|...)`: that is, when the environment is non-empty and no installed
name is a prefix of the token.  The test neither consults the fixed
vocabulary nor defers for recognized-but-unavailable algorithms. -/
theorem c10_validation (env : Env) (m : Message) (c : Codepoints) :
    (jsonify env m (some c) = .error (.unsupportedCompression c) ↔
      compressionMatch env c = false) ∧
    (compressionMatch env c = true ↔
      env.compressors.isEmpty = true ∨
        ∃ n ∈ env.names, n.isPrefixOf c = true) := by
  constructor
  · constructor
    · intro h
      by_contra hc
      have hc2 : compressionMatch env c = true := by
        cases e : compressionMatch env c
        · exact absurd e hc
        · rfl
      rw [show jsonify env m (some c) =
          jsonifyBody env m (if c = [] then none else some c) from by
        simp [jsonify, hc2]] at h
      exact jsonifyBody_ne_unsupported env m _ c h
    · intro h
      simp [jsonify, h]
  · unfold compressionMatch
    simp [List.any_eq_true]

/-- C3 counterexample: a 1-byte *binary* body is never compressed, but its
`jsonify` output still carries an `encoding` field (`base64`), so "the
resulting object for such a body has no encoding field" is false for binary
bodies. -/
theorem c3_counterexample :
    jsonify envId (Message.init (.bytes [0]) none) (some tokZlib) =
      .ok ⟨none, some (.bytes [65, 65, 61, 61]), none, some tokBase64⟩ ∧
    List.length [0] < 255 := by
  exact ⟨rfl, by decide⟩

/-- A large all-ASCII text message (300 copies of `'a'`). -/
def mBig : Message := Message.init (.str (List.replicate 300 97)) none

/-- A large binary message (300 copies of byte 5). -/
def mBigBin : Message := Message.init (.bytes (List.replicate 300 5)) none

/-- C3 (amended): a body shorter than 255 bytes (the UTF-8 byte count for a
text body) is never compressed — for a text body the output has no
`encoding` field at all, while a binary body may still be base64-wrapped
(token `base64` only, never a compression token); a body of at least 255
bytes keeps the compressed result and records the token exactly when the
compressed size is strictly below 90% of the original, and otherwise the
original body is used with no compression token (for a text body the UTF-8
step is rolled back as well). -/
theorem c3_compression_policy (env : Env) (c : Codepoints)
    (hc : c ∈ env.names) (hcne : c ≠ []) :
    (∀ m s, m.body = .str s → m.text = true → pyTruthy m.body = true →
      (utf8EncodeStr s).length < 255 →
      jsonify env m (some c) =
        .ok ⟨if m.header.isEmpty then none else some m.header, some m.body,
          some true, none⟩) ∧
    (∀ m bb, m.body = .bytes bb → m.text = false → pyTruthy m.body = true →
      bb.length < 255 →
      jsonify env m (some c) =
        .ok ⟨if m.header.isEmpty then none else some m.header,
          some (.bytes (if base64Needed bb then b64encode bb else bb)), none,
          if base64Needed bb then some tokBase64 else none⟩) ∧
    (∀ m bb q, m.body = .bytes bb → m.text = false → pyTruthy m.body = true →
      ¬ bb.length < 255 →
      env.compressors.find? (fun p => p.1 = c) = some q →
      jsonify env m (some c) =
        if 10 * (q.2.1 bb).length < 9 * bb.length then
          .ok ⟨if m.header.isEmpty then none else some m.header,
            some (.bytes (if base64Needed (q.2.1 bb) then b64encode (q.2.1 bb)
              else q.2.1 bb)), none,
            some (joinPlus (c :: (if base64Needed (q.2.1 bb) then [tokBase64]
              else [])))⟩
        else
          .ok ⟨if m.header.isEmpty then none else some m.header,
            some (.bytes (if base64Needed bb then b64encode bb else bb)), none,
            if base64Needed bb then some tokBase64 else none⟩) ∧
    (∀ m s q, m.body = .str s → m.text = true → pyTruthy m.body = true →
      ¬ (utf8EncodeStr s).length < 255 →
      env.compressors.find? (fun p => p.1 = c) = some q →
      jsonify env m (some c) =
        if 10 * (q.2.1 (utf8EncodeStr s)).length <
            9 * (utf8EncodeStr s).length then
          (if base64Needed (q.2.1 (utf8EncodeStr s)) then
            .ok ⟨if m.header.isEmpty then none else some m.header,
              some (.bytes (b64encode (q.2.1 (utf8EncodeStr s)))), some true,
              some (joinPlus [tokUtf8, c, tokBase64])⟩
          else
            .ok ⟨if m.header.isEmpty then none else some m.header,
              some (.bytes (q.2.1 (utf8EncodeStr s))), some true,
              some (joinPlus [tokUtf8, c])⟩)
        else
          .ok ⟨if m.header.isEmpty then none else some m.header, some m.body,
            some true, none⟩) := by
  refine ⟨?_, ?_, ?_, ?_⟩
  · intro m s hb ht htr hlen
    rw [jsonify_some _ _ _ (compressionMatch_of_mem hc) hcne,
      jsonifyBody_text_comp env m s c hb ht htr,
      compressIt_small env c _ hlen]
  · intro m bb hb ht htr hlen
    rw [jsonify_some _ _ _ (compressionMatch_of_mem hc) hcne,
      jsonifyBody_binary_some env m bb c hb ht htr,
      compressIt_small env c bb hlen]
    by_cases hb64 : base64Needed bb = true <;> simp [hb64, joinPlus, binaryOut]
  · intro m bb q hb ht htr hlen hfind
    rw [jsonify_some _ _ _ (compressionMatch_of_mem hc) hcne,
      jsonifyBody_binary_some env m bb c hb ht htr,
      compressIt_large env c bb q hlen hfind]
    by_cases hr : 10 * (q.2.1 bb).length < 9 * bb.length
    · rw [if_pos hr, if_pos hr]
      by_cases hb64 : base64Needed (q.2.1 bb) = true <;>
        simp [hb64, joinPlus, binaryOut]
    · rw [if_neg hr, if_neg hr]
      by_cases hb64 : base64Needed bb = true <;> simp [hb64, joinPlus, binaryOut]
  · intro m s q hb ht htr hlen hfind
    rw [jsonify_some _ _ _ (compressionMatch_of_mem hc) hcne,
      jsonifyBody_text_comp env m s c hb ht htr,
      compressIt_large env c _ q hlen hfind]
    by_cases hr : 10 * (q.2.1 (utf8EncodeStr s)).length <
        9 * (utf8EncodeStr s).length
    · rw [if_pos hr, if_pos hr]
    · rw [if_neg hr, if_neg hr]

set_option maxRecDepth 4000 in
/-- C3 witness. -/
theorem c3_compression_policy_witness :
    jsonify envShrink mBigBin (some tokZlib) =
      .ok ⟨none, some (.bytes [65, 65, 61, 61]), none,
        some (joinPlus [tokZlib, tokBase64])⟩ := by
  have h := (c3_compression_policy envShrink tokZlib (by decide)
    (by decide)).2.2.1 mBigBin (List.replicate 300 5)
    ⟨tokZlib, fun _ => [0], fun _ => []⟩ rfl rfl (by decide) (by decide) rfl
  rw [h]
  rfl

set_option maxRecDepth 4000 in
/-- C4 counterexample: an all-ASCII 300-character text body (every character
inside the printable low range) still gets the UTF-8 step and the `utf8`
token before compression — in the Python 3 path `_utf8_it` encodes
unconditionally, so "if and only if the text contains a character outside
the printable low range" is false. -/
theorem c4_counterexample :
    jsonify envShrink mBig (some tokZlib) =
      .ok ⟨none, some (.bytes [65, 65, 61, 61]), some true,
        some (joinPlus [tokUtf8, tokZlib, tokBase64])⟩ ∧
    ∀ ch ∈ List.replicate 300 97, 0x20 ≤ ch ∧ ch < 0x7f := by
  constructor
  · rfl
  · intro ch hch
    rw [List.eq_of_mem_replicate hch]
    omega

/-- C4 (amended): for a text body with a requested (and installed)
compression, the Python 3 path always UTF-8-encodes the body and records
the `utf8` token before the compression attempt, whatever the characters;
this is observable whenever compression is kept (the token list starts with
`utf8` and compression operated on the UTF-8 bytes), and when compression
is not kept the whole attempt — including the UTF-8 step — is rolled back,
leaving the original text body with no `encoding` field. -/
theorem c4_utf8_always (env : Env) (m : Message) (c s : Codepoints)
    (q : Codepoints × (Bytes → Bytes) × (Bytes → Bytes))
    (hb : m.body = .str s) (ht : m.text = true) (htr : pyTruthy m.body = true)
    (hc : c ∈ env.names) (hcne : c ≠ [])
    (hfind : env.compressors.find? (fun p => p.1 = c) = some q) :
    ∀ obj, jsonify env m (some c) = .ok obj →
      (obj.encoding = none ∧ obj.body = some m.body) ∨
      ((obj.encoding = some (joinPlus [tokUtf8, c, tokBase64]) ∧
          obj.body = some (.bytes (b64encode (q.2.1 (utf8EncodeStr s)))) ∨
        obj.encoding = some (joinPlus [tokUtf8, c]) ∧
          obj.body = some (.bytes (q.2.1 (utf8EncodeStr s)))) ∧
        255 ≤ (utf8EncodeStr s).length ∧
        10 * (q.2.1 (utf8EncodeStr s)).length <
          9 * (utf8EncodeStr s).length) := by
  intro obj hobj
  rw [jsonify_some _ _ _ (compressionMatch_of_mem hc) hcne,
    jsonifyBody_text_comp env m s c hb ht htr] at hobj
  cases hco : compressIt env c (utf8EncodeStr s) with
  | error e => rw [hco] at hobj; exact absurd hobj (by simp)
  | ok r =>
    cases r with
    | none =>
      rw [hco] at hobj
      obtain rfl := Except.ok.inj hobj
      left
      exact ⟨rfl, rfl⟩
    | some tmp =>
      rw [hco] at hobj
      have hlen : ¬ (utf8EncodeStr s).length < 255 := by
        intro hl
        rw [compressIt_small env c _ hl] at hco
        exact absurd hco (by simp)
      rw [compressIt_large env c _ q hlen hfind] at hco
      by_cases hr : 10 * (q.2.1 (utf8EncodeStr s)).length <
          9 * (utf8EncodeStr s).length
      · rw [if_pos hr] at hco
        obtain rfl : q.2.1 (utf8EncodeStr s) = tmp := by
          simpa using hco
        have hobj2 : (if base64Needed (q.2.1 (utf8EncodeStr s)) then
            Except.ok (⟨if m.header.isEmpty then none else some m.header,
              some (.bytes (b64encode (q.2.1 (utf8EncodeStr s)))), some true,
              some (joinPlus [tokUtf8, c, tokBase64])⟩ : JsonObj)
          else
            Except.ok (⟨if m.header.isEmpty then none else some m.header,
              some (.bytes (q.2.1 (utf8EncodeStr s))), some true,
              some (joinPlus [tokUtf8, c])⟩ : JsonObj)) = Except.ok obj :=
          hobj
        by_cases hb64 : base64Needed (q.2.1 (utf8EncodeStr s)) = true
        · rw [if_pos hb64] at hobj2
          obtain rfl := Except.ok.inj hobj2
          right
          exact ⟨Or.inl ⟨rfl, rfl⟩, by omega, hr⟩
        · rw [if_neg hb64] at hobj2
          obtain rfl := Except.ok.inj hobj2
          right
          exact ⟨Or.inr ⟨rfl, rfl⟩, by omega, hr⟩
      · rw [if_neg hr] at hco
        exact absurd hco (by simp)

set_option maxRecDepth 4000 in
/-- C4 witness. -/
theorem c4_utf8_always_witness :
    ((⟨none, some (.bytes [65, 65, 61, 61]), some true,
        some (joinPlus [tokUtf8, tokZlib, tokBase64])⟩ : JsonObj).encoding =
          none ∧
      (⟨none, some (.bytes [65, 65, 61, 61]), some true,
        some (joinPlus [tokUtf8, tokZlib, tokBase64])⟩ : JsonObj).body =
          some mBig.body) ∨
    (((⟨none, some (.bytes [65, 65, 61, 61]), some true,
        some (joinPlus [tokUtf8, tokZlib, tokBase64])⟩ : JsonObj).encoding =
          some (joinPlus [tokUtf8, tokZlib, tokBase64]) ∧
      (⟨none, some (.bytes [65, 65, 61, 61]), some true,
        some (joinPlus [tokUtf8, tokZlib, tokBase64])⟩ : JsonObj).body =
          some (.bytes (b64encode ((fun _ => [0])
            (utf8EncodeStr (List.replicate 300 97))))) ∨
      (⟨none, some (.bytes [65, 65, 61, 61]), some true,
        some (joinPlus [tokUtf8, tokZlib, tokBase64])⟩ : JsonObj).encoding =
          some (joinPlus [tokUtf8, tokZlib]) ∧
      (⟨none, some (.bytes [65, 65, 61, 61]), some true,
        some (joinPlus [tokUtf8, tokZlib, tokBase64])⟩ : JsonObj).body =
          some (.bytes ((fun _ => [0])
            (utf8EncodeStr (List.replicate 300 97))))) ∧
      255 ≤ (utf8EncodeStr (List.replicate 300 97)).length ∧
      10 * (((fun _ => [0]) :
          Bytes → Bytes) (utf8EncodeStr (List.replicate 300 97))).length <
        9 * (utf8EncodeStr (List.replicate 300 97)).length) :=
  c4_utf8_always envShrink mBig tokZlib (List.replicate 300 97)
    ⟨tokZlib, fun _ => [0], fun _ => []⟩ rfl rfl (by decide) (by decide)
    (by decide) rfl _ (by rfl)

/-- C2: the checksum is the digest of the UTF-8 encoding of
`<1|0><header-digest><body-digest>`, where the header digest hashes the
canonical `key:value\n` string over the *sorted* keys and the body digest
hashes the UTF-8 encoding of a text body or the raw bytes of a binary one;
it is therefore a pure function of the message and invariant under any
permutation of header insertion order. -/
theorem c2_checksum (digest : Bytes → Codepoints) (m : Message)
    (hcons : m.Consistent) (h2 : Header) (hp : m.header.Perm h2)
    (hnd : (m.header.map Prod.fst).Nodup) :
    m.md5 digest = some (digest (utf8EncodeStr
      ((if m.isText then [49] else [48]) ++
        digest (utf8EncodeStr (canonHeader m.header)) ++
        (match m.body with
         | .str s => digest (utf8EncodeStr s)
         | .bytes b => digest b)))) ∧
    List.Sorted (fun a b => cpLeb a b = true) (sortedKeys m.header) ∧
    Message.md5 digest { m with header := h2 } = Message.md5 digest m := by
  unfold Message.Consistent at hcons
  refine ⟨?_, List.sorted_insertionSort _ _, ?_⟩
  · unfold Message.md5 Message.isText
    cases hb : m.body with
    | str s =>
      have ht : m.text = true := by rw [hcons, hb]; rfl
      rw [ht]
      simp
    | bytes b =>
      have ht : m.text = false := by rw [hcons, hb]; rfl
      rw [ht]
      simp
  · unfold Message.md5 Message.isText
    rw [show ({ m with header := h2 } : Message).header = h2 from rfl,
      show ({ m with header := h2 } : Message).body = m.body from rfl,
      show ({ m with header := h2 } : Message).text = m.text from rfl,
      canonHeader_perm hp.symm (((hp.map Prod.fst).nodup_iff).mp hnd)]

/-- C2 witness. -/
theorem c2_checksum_witness :
    (Message.init (.str [104]) (some [([107], [118]), ([106], [117])])).md5
      (fun _ => []) = some [] ∧
    Message.md5 (fun _ => [])
      { Message.init (.str [104]) (some [([107], [118]), ([106], [117])]) with
        header := [([106], [117]), ([107], [118])] } =
      (Message.init (.str [104]) (some [([107], [118]), ([106], [117])])).md5
        (fun _ => []) := by
  have h := c2_checksum (fun _ => [])
    (Message.init (.str [104]) (some [([107], [118]), ([106], [117])]))
    (by decide) [([106], [117]), ([107], [118])] (by decide) (by decide)
  exact ⟨by rw [h.1], h.2.2⟩

/-! ## Token verification lemmas for `dejsonify` -/

theorem checkTokens_none_iff (env : Env) : ∀ ts : List Codepoints,
    checkTokens env ts = none ↔
      ∀ t ∈ ts, t ∈ AVAILABLE_DECODING ∧ ¬(t ∈ SUPPORTED ∧ t ∉ env.names)
  | [] => by simp [checkTokens]
  | t :: r => by
    simp only [checkTokens]
    by_cases h1 : t ∈ AVAILABLE_DECODING
    · rw [if_neg (not_not_intro h1)]
      by_cases h2 : t ∈ SUPPORTED ∧ t ∉ env.names
      · rw [if_pos h2]
        simp only [List.forall_mem_cons]
        constructor
        · intro h; exact absurd h (by simp)
        · rintro ⟨⟨-, hni⟩, -⟩; exact absurd h2 hni
      · rw [if_neg h2, checkTokens_none_iff env r, List.forall_mem_cons]
        simp [h1, h2]
    · rw [if_pos h1]
      simp only [List.forall_mem_cons]
      constructor
      · intro h; exact absurd h (by simp)
      · rintro ⟨⟨hav, -⟩, -⟩; exact absurd hav h1

theorem checkTokens_some_shape (env : Env) : ∀ (ts : List Codepoints)
    (err : MsgError), checkTokens env ts = some err →
    ∃ t ∈ ts, (err = .unknownEncoding t ∧ t ∉ AVAILABLE_DECODING) ∨
      (err = .encodingUnavailable t ∧ t ∈ SUPPORTED ∧ t ∉ env.names)
  | [], err => by simp [checkTokens]
  | t :: r, err => by
    intro h
    simp only [checkTokens] at h
    by_cases h1 : t ∈ AVAILABLE_DECODING
    · rw [if_neg (not_not_intro h1)] at h
      by_cases h2 : t ∈ SUPPORTED ∧ t ∉ env.names
      · rw [if_pos h2] at h
        exact ⟨t, by simp, Or.inr ⟨(Option.some.inj h).symm, h2⟩⟩
      · rw [if_neg h2] at h
        obtain ⟨t2, ht2, hsh⟩ := checkTokens_some_shape env r err h
        exact ⟨t2, by simp [ht2], hsh⟩
    · rw [if_pos h1] at h
      exact ⟨t, by simp, Or.inl ⟨(Option.some.inj h).symm, h1⟩⟩

theorem dejsonify_encoding (env : Env) (obj : JsonObj) (e : Codepoints)
    (he : obj.encoding = some e) (hne : e ≠ []) :
    dejsonify env obj =
      finalizeMsg (obj.text = some true : Bool) (obj.header.getD [])
        (match checkTokens env (splitPlus e) with
         | some err => .error err
         | none => decodeSteps env (splitPlus e)
             (toBytes (obj.body.getD (.bytes [])))) := by
  simp only [dejsonify, splitTokens, he]
  rw [if_neg hne,
    if_neg (by simp [List.isEmpty_iff, splitPlus_ne_nil e])]

theorem dejsonify_no_encoding (env : Env) (obj : JsonObj)
    (he : obj.encoding = none) :
    dejsonify env obj =
      finalizeMsg (obj.text = some true : Bool) (obj.header.getD [])
        (.ok (obj.body.getD (.bytes []))) := by
  simp only [dejsonify, splitTokens, he]
  rfl

theorem decodeSteps_congr (env : Env) (t1 t2 : List Codepoints) (b : Bytes)
    (h : ∀ t, t ∈ t1 ↔ t ∈ t2) :
    decodeSteps env t1 b = decodeSteps env t2 b := by
  unfold decodeSteps decompressFold
  simp only [show ∀ t : Codepoints, (t ∈ t1) = (t ∈ t2) from
    fun t => propext (h t)]

/-- C5: with an `encoding` field present, `dejsonify` first verifies every
token — an unrecognized token fails with the unknown-encoding error and a
recognized compression token that is not installed fails with the
not-installed error, in both cases independently of the body (no inverse
transform has been attempted) — and when every token is valid the inverse
transforms are applied in the fixed order base64-decode, then decompress,
then UTF-8-decode, with a result that depends only on token membership,
not on token order in the string. -/
theorem c5_dejsonify_checks (env : Env) (obj : JsonObj) (e : Codepoints)
    (he : obj.encoding = some e) (hne : e ≠ []) :
    (∀ err, checkTokens env (splitPlus e) = some err →
      dejsonify env obj = .error err ∧
      (∀ b, dejsonify env { obj with body := b } = .error err) ∧
      ∃ t ∈ splitPlus e,
        (err = .unknownEncoding t ∧ t ∉ AVAILABLE_DECODING) ∨
        (err = .encodingUnavailable t ∧ t ∈ SUPPORTED ∧ t ∉ env.names)) ∧
    ((∃ t ∈ splitPlus e, t ∉ AVAILABLE_DECODING ∨
        (t ∈ SUPPORTED ∧ t ∉ env.names)) ↔
      checkTokens env (splitPlus e) ≠ none) ∧
    (checkTokens env (splitPlus e) = none →
      dejsonify env obj =
        finalizeMsg (obj.text = some true : Bool) (obj.header.getD [])
          (decodeSteps env (splitPlus e)
            (toBytes (obj.body.getD (.bytes []))))) ∧
    (∀ e2, e2 ≠ [] → (∀ t, t ∈ splitPlus e ↔ t ∈ splitPlus e2) →
      checkTokens env (splitPlus e) = none →
      dejsonify env obj = dejsonify env { obj with encoding := some e2 }) := by
  refine ⟨?_, ?_, ?_, ?_⟩
  · intro err hchk
    refine ⟨?_, ?_, checkTokens_some_shape env _ err hchk⟩
    · rw [dejsonify_encoding env obj e he hne, hchk]
      rfl
    · intro b
      rw [dejsonify_encoding env { obj with body := b } e (by simp [he]) hne,
        hchk]
      rfl
  · constructor
    · rintro ⟨t, ht, hbad⟩ hnone
      rw [checkTokens_none_iff] at hnone
      obtain ⟨hav, hno⟩ := hnone t ht
      rcases hbad with h | h
      · exact h hav
      · exact hno h
    · intro hns
      by_contra hng
      push_neg at hng
      refine hns ((checkTokens_none_iff env _).mpr (fun t ht => ?_))
      obtain ⟨hav, hni⟩ := hng t ht
      exact ⟨hav, fun ⟨hs, hnm⟩ => hnm (hni hs)⟩
  · intro hchk
    rw [dejsonify_encoding env obj e he hne, hchk]
  · intro e2 hne2 hmem hchk
    have hchk2 : checkTokens env (splitPlus e2) = none := by
      rw [checkTokens_none_iff] at hchk ⊢
      exact fun t ht => hchk t ((hmem t).mpr ht)
    rw [dejsonify_encoding env obj e he hne, hchk,
      dejsonify_encoding env { obj with encoding := some e2 } e2 (by simp)
        hne2, hchk2]
    rw [decodeSteps_congr env (splitPlus e) (splitPlus e2) _ hmem]

/-- C5 witness. -/
theorem c5_dejsonify_checks_witness :
    dejsonify envId (⟨none, some (.bytes [104]), none, some tokZlib⟩ :
        JsonObj) =
      finalizeMsg (((⟨none, some (.bytes [104]), none, some tokZlib⟩ :
          JsonObj).text = some true : Bool))
        ((⟨none, some (.bytes [104]), none, some tokZlib⟩ :
          JsonObj).header.getD [])
        (decodeSteps envId (splitPlus tokZlib)
          (toBytes ((⟨none, some (.bytes [104]), none, some tokZlib⟩ :
            JsonObj).body.getD (.bytes [])))) :=
  (c5_dejsonify_checks envId
    (⟨none, some (.bytes [104]), none, some tokZlib⟩ : JsonObj) tokZlib rfl
    (by decide)).2.2.1 (by rfl)

/-! ## Round-trip support lemmas -/

/-- When `_base64_it` skips base64, the body bytes are valid UTF-8 and
re-encoding the decoded text reproduces them exactly. -/
theorem base64Needed_false_spec {b : Bytes} (h : base64Needed b = false) :
    ∃ st, utf8Dec b = some st ∧ utf8EncodeStr st = b := by
  unfold base64Needed at h
  cases e : utf8Dec b with
  | none => rw [e] at h; exact absurd h (by simp)
  | some st =>
    exact ⟨st, rfl, utf8EncodeStr_dec b.length b le_rfl st e⟩

theorem hdrOf_getD (mh : Header) :
    ((if mh.isEmpty then none else some mh : Option Header)).getD [] = mh := by
  split <;> simp_all [List.isEmpty_iff]

theorem dejsonify_tokens (env : Env) (mh : Header) (tx : Option Bool)
    (bodyv : Option PyStr) (e : Codepoints) (hne : e ≠ [])
    (hchk : checkTokens env (splitPlus e) = none) :
    dejsonify env ⟨(if mh.isEmpty then none else some mh), bodyv, tx, some e⟩ =
      finalizeMsg (tx = some true : Bool) mh
        (decodeSteps env (splitPlus e) (toBytes (bodyv.getD (.bytes [])))) := by
  rw [dejsonify_encoding env _ e rfl hne, hchk]
  simp only [hdrOf_getD]

theorem dejsonify_congr_body (env : Env) (hd : Option Header)
    (tx : Option Bool) (e : Codepoints) (hne : e ≠ []) (b0 b1 : Option PyStr)
    (hb : toBytes (b0.getD (.bytes [])) = toBytes (b1.getD (.bytes []))) :
    dejsonify env ⟨hd, b0, tx, some e⟩ = dejsonify env ⟨hd, b1, tx, some e⟩ := by
  rw [dejsonify_encoding env _ e rfl hne, dejsonify_encoding env _ e rfl hne]
  simp only []
  rw [hb]

theorem stringifyObj_bytes (hd : Option Header) (tx : Option Bool)
    (e : Option Codepoints) (B : Bytes) (st : Codepoints)
    (hdecode : utf8Dec B = some st) :
    stringifyObj ⟨hd, some (.bytes B), tx, e⟩ = .ok ⟨hd, some (.str st), tx, e⟩ := by
  simp only [stringifyObj, hdecode]

theorem stringifyObj_str (hd : Option Header) (tx : Option Bool)
    (e : Option Codepoints) (s : Codepoints) :
    stringifyObj ⟨hd, some (.str s), tx, e⟩ = .ok ⟨hd, some (.str s), tx, e⟩ :=
  rfl

theorem stringifyObj_none (hd : Option Header) (tx : Option Bool)
    (e : Option Codepoints) :
    stringifyObj ⟨hd, none, tx, e⟩ = .ok ⟨hd, none, tx, e⟩ :=
  rfl

theorem decodeSteps_text_kept (env : Env) (hwf : EnvWF env) (c : Codepoints)
    (q : Codepoints × (Bytes → Bytes) × (Bytes → Bytes))
    (hfind : env.compressors.find? (fun p => p.1 = c) = some q)
    (hcS : c ∈ SUPPORTED) (s : Codepoints) (hs : ∀ x ∈ s, ValidCp x)
    (tmp : Bytes) (htmp : ∀ x ∈ tmp, x < 256)
    (hdec : q.2.2 tmp = utf8EncodeStr s) :
    decodeSteps env [tokUtf8, c, tokBase64] (b64encode tmp) = .ok (.str s) ∧
    decodeSteps env [tokUtf8, c] tmp = .ok (.str s) := by
  obtain ⟨hu, hb, -⟩ := supported_ne_special c hcS
  have htok1 : ∀ p ∈ env.compressors,
      (p.1 ∈ [tokUtf8, c, tokBase64] ↔ p.1 = c) := by
    intro p hp
    constructor
    · intro hmem
      have hpS : p.1 ∈ SUPPORTED := hwf.2 p.1 (List.mem_map_of_mem (·.1) hp)
      obtain ⟨hu2, hb2, -⟩ := supported_ne_special p.1 hpS
      simp only [List.mem_cons, List.not_mem_nil, or_false] at hmem
      rcases hmem with h | h | h
      · exact absurd h hu2
      · exact h
      · exact absurd h hb2
    · intro h; simp [h]
  have htok2 : ∀ p ∈ env.compressors, (p.1 ∈ [tokUtf8, c] ↔ p.1 = c) := by
    intro p hp
    constructor
    · intro hmem
      have hpS : p.1 ∈ SUPPORTED := hwf.2 p.1 (List.mem_map_of_mem (·.1) hp)
      obtain ⟨hu2, -, -⟩ := supported_ne_special p.1 hpS
      simp only [List.mem_cons, List.not_mem_nil, or_false] at hmem
      rcases hmem with h | h
      · exact absurd h hu2
      · exact h
    · intro h; simp [h]
  constructor
  · unfold decodeSteps
    rw [if_pos (by simp), b64decode_encode tmp htmp]
    simp only [decompressFold]
    rw [foldDecomp_single env.compressors [tokUtf8, c, tokBase64] c q tmp
      hfind hwf.1 htok1, hdec]
    rw [if_pos (by simp), utf8Dec_encodeStr s hs]
  · unfold decodeSteps
    rw [if_neg (by simp [Ne.symm hb, show tokBase64 ≠ tokUtf8 by decide])]
    simp only [decompressFold]
    rw [foldDecomp_single env.compressors [tokUtf8, c] c q tmp hfind hwf.1
      htok2, hdec]
    rw [if_pos (by simp), utf8Dec_encodeStr s hs]

theorem decodeSteps_b64_only (env : Env) (hwf : EnvWF env) (bb : Bytes)
    (hbb : ∀ x ∈ bb, x < 256) :
    decodeSteps env [tokBase64] (b64encode bb) = .ok (.bytes bb) := by
  unfold decodeSteps
  rw [if_pos (by simp), b64decode_encode bb hbb]
  simp only [decompressFold]
  rw [foldDecomp_skip env.compressors [tokBase64] bb (by
    intro p hp hmem
    have hpS : p.1 ∈ SUPPORTED := hwf.2 p.1 (List.mem_map_of_mem (·.1) hp)
    obtain ⟨-, hb2, -⟩ := supported_ne_special p.1 hpS
    simp only [List.mem_cons, List.not_mem_nil, or_false] at hmem
    exact hb2 hmem)]
  rw [if_neg (by decide)]

theorem decodeSteps_binary_kept (env : Env) (hwf : EnvWF env) (c : Codepoints)
    (q : Codepoints × (Bytes → Bytes) × (Bytes → Bytes))
    (hfind : env.compressors.find? (fun p => p.1 = c) = some q)
    (hcS : c ∈ SUPPORTED) (bb tmp : Bytes) (htmp : ∀ x ∈ tmp, x < 256)
    (hdec : q.2.2 tmp = bb) :
    decodeSteps env [c, tokBase64] (b64encode tmp) = .ok (.bytes bb) ∧
    decodeSteps env [c] tmp = .ok (.bytes bb) := by
  obtain ⟨hu, hb, -⟩ := supported_ne_special c hcS
  have htok1 : ∀ p ∈ env.compressors, (p.1 ∈ [c, tokBase64] ↔ p.1 = c) := by
    intro p hp
    constructor
    · intro hmem
      have hpS : p.1 ∈ SUPPORTED := hwf.2 p.1 (List.mem_map_of_mem (·.1) hp)
      obtain ⟨-, hb2, -⟩ := supported_ne_special p.1 hpS
      simp only [List.mem_cons, List.not_mem_nil, or_false] at hmem
      rcases hmem with h | h
      · exact h
      · exact absurd h hb2
    · intro h; simp [h]
  have htok2 : ∀ p ∈ env.compressors, (p.1 ∈ [c] ↔ p.1 = c) := by
    intro p hp
    simp
  constructor
  · unfold decodeSteps
    rw [if_pos (by simp), b64decode_encode tmp htmp]
    simp only [decompressFold]
    rw [foldDecomp_single env.compressors [c, tokBase64] c q tmp hfind hwf.1
      htok1, hdec]
    rw [if_neg (by simp [Ne.symm hu, show tokUtf8 ≠ tokBase64 by decide])]
  · unfold decodeSteps
    rw [if_neg (by simp [Ne.symm hb])]
    simp only [decompressFold]
    rw [foldDecomp_single env.compressors [c] c q tmp hfind hwf.1 htok2,
      hdec]
    rw [if_neg (by simp [Ne.symm hu])]

/-! ## dejsonify on each output shape of jsonify -/

theorem dejsonify_shape_str (env : Env) (mh : Header) (s : Codepoints)
    (tx : Option Bool) (htx : (tx = some true : Bool) = true) :
    dejsonify env
      ⟨(if mh.isEmpty then none else some mh), some (.str s), tx, none⟩ =
      .ok ⟨.str s, mh, true⟩ := by
  rw [dejsonify_no_encoding env _ rfl]
  simp only [htx, hdrOf_getD]
  rfl

theorem dejsonify_shape_str_bin (env : Env) (mh : Header) (st : Codepoints)
    (tx : Option Bool) (htx : (tx = some true : Bool) = false) :
    dejsonify env
      ⟨(if mh.isEmpty then none else some mh), some (.str st), tx, none⟩ =
      .ok ⟨.bytes (utf8EncodeStr st), mh, false⟩ := by
  rw [dejsonify_no_encoding env _ rfl]
  simp only [htx, hdrOf_getD]
  rfl

theorem dejsonify_shape_bytes (env : Env) (mh : Header) (b : Bytes)
    (tx : Option Bool) (htx : (tx = some true : Bool) = false) :
    dejsonify env
      ⟨(if mh.isEmpty then none else some mh), some (.bytes b), tx, none⟩ =
      .ok ⟨.bytes b, mh, false⟩ := by
  rw [dejsonify_no_encoding env _ rfl]
  simp only [htx, hdrOf_getD]
  rfl

theorem dejsonify_shape_empty (env : Env) (mh : Header) :
    dejsonify env ⟨(if mh.isEmpty then none else some mh), none, none, none⟩ =
      .ok ⟨.bytes [], mh, false⟩ := by
  rw [dejsonify_no_encoding env _ rfl]
  simp only [hdrOf_getD]
  rfl

/-! ## Round trip of each jsonify output shape -/

theorem textPlain_roundtrip (env : Env) (mh : Header) (s : Codepoints) :
    dejsonify env
      ⟨(if mh.isEmpty then none else some mh), some (.str s), some true,
        none⟩ = .ok ⟨.str s, mh, true⟩ ∧
    ∃ obj2, stringifyObj
        ⟨(if mh.isEmpty then none else some mh), some (.str s), some true,
          none⟩ = .ok obj2 ∧
      dejsonify env obj2 = .ok ⟨.str s, mh, true⟩ := by
  refine ⟨dejsonify_shape_str env mh s (some true) rfl, _,
    stringifyObj_str _ _ _ _, dejsonify_shape_str env mh s (some true) rfl⟩

theorem binaryOut_none_roundtrip (env : Env) (hwf : EnvWF env) (mh : Header)
    (bb : Bytes) (hbb : ∀ x ∈ bb, x < 256) :
    dejsonify env (binaryOut (if mh.isEmpty then none else some mh) [] bb) =
      .ok ⟨.bytes bb, mh, false⟩ ∧
    ∃ obj2, stringifyObj
        (binaryOut (if mh.isEmpty then none else some mh) [] bb) =
        .ok obj2 ∧
      dejsonify env obj2 = .ok ⟨.bytes bb, mh, false⟩ := by
  by_cases hb64 : base64Needed bb = true
  · have hshape : binaryOut (if mh.isEmpty then none else some mh) [] bb =
        ⟨(if mh.isEmpty then none else some mh),
          some (.bytes (b64encode bb)), none, some tokBase64⟩ := by
      simp [binaryOut, hb64, joinPlus]
    have hsplit : splitPlus tokBase64 = [tokBase64] :=
      splitPlus_no43 tokBase64 (by decide)
    have hchk : checkTokens env (splitPlus tokBase64) = none := by
      rw [hsplit, checkTokens_none_iff]
      intro t ht
      simp only [List.mem_singleton] at ht
      subst ht
      exact ⟨by decide, fun hx => absurd hx.1 (by decide)⟩
    have hdej : dejsonify env
        ⟨(if mh.isEmpty then none else some mh),
          some (.bytes (b64encode bb)), none, some tokBase64⟩ =
        .ok ⟨.bytes bb, mh, false⟩ := by
      rw [dejsonify_tokens env mh none (some (.bytes (b64encode bb)))
        tokBase64 (by decide) hchk, hsplit]
      show finalizeMsg false mh
        (decodeSteps env [tokBase64] (b64encode bb)) = _
      rw [decodeSteps_b64_only env hwf bb hbb]
      rfl
    rw [hshape]
    refine ⟨hdej, ⟨(if mh.isEmpty then none else some mh),
      some (.str (b64encode bb)), none, some tokBase64⟩, ?_, ?_⟩
    · exact stringifyObj_bytes _ _ _ _ _
        (utf8Dec_ascii _ (b64encode_lt128 bb))
    · rw [dejsonify_congr_body env _ none tokBase64 (by decide)
        (some (.str (b64encode bb))) (some (.bytes (b64encode bb)))
        (by show utf8EncodeStr (b64encode bb) = b64encode bb
            exact utf8EncodeStr_ascii _ (b64encode_lt128 bb))]
      exact hdej
  · obtain ⟨st, hdecB, hencB⟩ := base64Needed_false_spec
      (by simpa using hb64)
    have hshape : binaryOut (if mh.isEmpty then none else some mh) [] bb =
        ⟨(if mh.isEmpty then none else some mh), some (.bytes bb), none,
          none⟩ := by
      simp [binaryOut, hb64]
    rw [hshape]
    refine ⟨dejsonify_shape_bytes env mh bb none rfl,
      ⟨(if mh.isEmpty then none else some mh), some (.str st), none, none⟩,
      stringifyObj_bytes _ _ _ _ _ hdecB, ?_⟩
    rw [dejsonify_shape_str_bin env mh st none rfl, hencB]

theorem binaryOut_kept_roundtrip (env : Env) (hwf : EnvWF env)
    (c : Codepoints) (q : Codepoints × (Bytes → Bytes) × (Bytes → Bytes))
    (hfind : env.compressors.find? (fun p => p.1 = c) = some q)
    (hcS : c ∈ SUPPORTED) (mh : Header) (bb tmp : Bytes)
    (htmpb : ∀ x ∈ tmp, x < 256) (hdecc : q.2.2 tmp = bb) :
    dejsonify env (binaryOut (if mh.isEmpty then none else some mh) [c] tmp) =
      .ok ⟨.bytes bb, mh, false⟩ ∧
    ∃ obj2, stringifyObj
        (binaryOut (if mh.isEmpty then none else some mh) [c] tmp) =
        .ok obj2 ∧
      dejsonify env obj2 = .ok ⟨.bytes bb, mh, false⟩ := by
  have hno43 : 43 ∉ c := supported_no43 c hcS
  by_cases hb64 : base64Needed tmp = true
  · have hshape : binaryOut (if mh.isEmpty then none else some mh) [c] tmp =
        ⟨(if mh.isEmpty then none else some mh),
          some (.bytes (b64encode tmp)), none,
          some (joinPlus [c, tokBase64])⟩ := by
      simp [binaryOut, hb64]
    have hjoin_ne : joinPlus [c, tokBase64] ≠ [] := by
      simp [joinPlus]
    have hsplit : splitPlus (joinPlus [c, tokBase64]) = [c, tokBase64] := by
      refine splitPlus_join _ (by simp) ?_
      intro t ht
      simp only [List.mem_cons, List.not_mem_nil, or_false] at ht
      rcases ht with rfl | rfl
      · exact hno43
      · decide
    have hchk : checkTokens env (splitPlus (joinPlus [c, tokBase64])) =
        none := by
      rw [hsplit, checkTokens_none_iff]
      intro t ht
      simp only [List.mem_cons, List.not_mem_nil, or_false] at ht
      rcases ht with rfl | rfl
      · refine ⟨supported_sub_available t hcS, fun hx => hx.2 ?_⟩
        rw [Env.names]
        have := List.mem_of_find?_eq_some hfind
        have hq1 : q.1 = t := by simpa using List.find?_some hfind
        exact hq1 ▸ List.mem_map_of_mem (·.1) this
      · exact ⟨by decide, fun hx => absurd hx.1 (by decide)⟩
    have hdej : dejsonify env
        ⟨(if mh.isEmpty then none else some mh),
          some (.bytes (b64encode tmp)), none,
          some (joinPlus [c, tokBase64])⟩ = .ok ⟨.bytes bb, mh, false⟩ := by
      rw [dejsonify_tokens env mh none (some (.bytes (b64encode tmp)))
        (joinPlus [c, tokBase64]) hjoin_ne hchk, hsplit]
      show finalizeMsg false mh
        (decodeSteps env [c, tokBase64] (b64encode tmp)) = _
      rw [(decodeSteps_binary_kept env hwf c q hfind hcS bb tmp htmpb
        hdecc).1]
      rfl
    rw [hshape]
    refine ⟨hdej, ⟨(if mh.isEmpty then none else some mh),
      some (.str (b64encode tmp)), none, some (joinPlus [c, tokBase64])⟩,
      ?_, ?_⟩
    · exact stringifyObj_bytes _ _ _ _ _
        (utf8Dec_ascii _ (b64encode_lt128 tmp))
    · rw [dejsonify_congr_body env _ none (joinPlus [c, tokBase64]) hjoin_ne
        (some (.str (b64encode tmp))) (some (.bytes (b64encode tmp)))
        (by show utf8EncodeStr (b64encode tmp) = b64encode tmp
            exact utf8EncodeStr_ascii _ (b64encode_lt128 tmp))]
      exact hdej
  · obtain ⟨st, hdecB, hencB⟩ := base64Needed_false_spec
      (by simpa using hb64)
    have hshape : binaryOut (if mh.isEmpty then none else some mh) [c] tmp =
        ⟨(if mh.isEmpty then none else some mh), some (.bytes tmp), none,
          some (joinPlus [c])⟩ := by
      simp [binaryOut, hb64]
    have hjoin_ne : joinPlus [c] ≠ [] := by
      simpa [joinPlus] using (supported_ne_special c hcS).2.2
    have hsplit : splitPlus (joinPlus [c]) = [c] := by
      refine splitPlus_join _ (by simp) ?_
      intro t ht
      simp only [List.mem_singleton] at ht
      subst ht
      exact hno43
    have hchk : checkTokens env (splitPlus (joinPlus [c])) = none := by
      rw [hsplit, checkTokens_none_iff]
      intro t ht
      simp only [List.mem_singleton] at ht
      subst ht
      refine ⟨supported_sub_available t hcS, fun hx => hx.2 ?_⟩
      rw [Env.names]
      have := List.mem_of_find?_eq_some hfind
      have hq1 : q.1 = t := by simpa using List.find?_some hfind
      exact hq1 ▸ List.mem_map_of_mem (·.1) this
    have hdej : dejsonify env
        ⟨(if mh.isEmpty then none else some mh), some (.bytes tmp), none,
          some (joinPlus [c])⟩ = .ok ⟨.bytes bb, mh, false⟩ := by
      rw [dejsonify_tokens env mh none (some (.bytes tmp)) (joinPlus [c])
        hjoin_ne hchk, hsplit]
      show finalizeMsg false mh (decodeSteps env [c] tmp) = _
      rw [(decodeSteps_binary_kept env hwf c q hfind hcS bb tmp htmpb
        hdecc).2]
      rfl
    rw [hshape]
    refine ⟨hdej, ⟨(if mh.isEmpty then none else some mh),
      some (.str st), none, some (joinPlus [c])⟩,
      stringifyObj_bytes _ _ _ _ _ hdecB, ?_⟩
    rw [dejsonify_congr_body env _ none (joinPlus [c]) hjoin_ne
      (some (.str st)) (some (.bytes tmp))
      (by show utf8EncodeStr st = tmp
          exact hencB)]
    exact hdej

theorem textKept_roundtrip (env : Env) (hwf : EnvWF env) (c : Codepoints)
    (q : Codepoints × (Bytes → Bytes) × (Bytes → Bytes))
    (hfind : env.compressors.find? (fun p => p.1 = c) = some q)
    (hcS : c ∈ SUPPORTED) (mh : Header) (s : Codepoints)
    (hs : ∀ x ∈ s, ValidCp x) (tmp : Bytes) (htmpb : ∀ x ∈ tmp, x < 256)
    (hdecc : q.2.2 tmp = utf8EncodeStr s) :
    (dejsonify env ⟨(if mh.isEmpty then none else some mh),
        some (.bytes (b64encode tmp)), some true,
        some (joinPlus [tokUtf8, c, tokBase64])⟩ = .ok ⟨.str s, mh, true⟩ ∧
      ∃ obj2, stringifyObj ⟨(if mh.isEmpty then none else some mh),
          some (.bytes (b64encode tmp)), some true,
          some (joinPlus [tokUtf8, c, tokBase64])⟩ = .ok obj2 ∧
        dejsonify env obj2 = .ok ⟨.str s, mh, true⟩) ∧
    (base64Needed tmp = false →
      dejsonify env ⟨(if mh.isEmpty then none else some mh),
          some (.bytes tmp), some true, some (joinPlus [tokUtf8, c])⟩ =
        .ok ⟨.str s, mh, true⟩ ∧
      ∃ obj2, stringifyObj ⟨(if mh.isEmpty then none else some mh),
          some (.bytes tmp), some true, some (joinPlus [tokUtf8, c])⟩ =
        .ok obj2 ∧
        dejsonify env obj2 = .ok ⟨.str s, mh, true⟩) := by
  have hno43 : 43 ∉ c := supported_no43 c hcS
  have hinst : c ∈ env.names := by
    have := List.mem_of_find?_eq_some hfind
    have hq1 : q.1 = c := by simpa using List.find?_some hfind
    exact hq1 ▸ List.mem_map_of_mem (·.1) this
  constructor
  · have hjoin_ne : joinPlus [tokUtf8, c, tokBase64] ≠ [] := by
      simp [joinPlus, tokUtf8]
    have hsplit : splitPlus (joinPlus [tokUtf8, c, tokBase64]) =
        [tokUtf8, c, tokBase64] := by
      refine splitPlus_join _ (by simp) ?_
      intro t ht
      simp only [List.mem_cons, List.not_mem_nil, or_false] at ht
      rcases ht with rfl | rfl | rfl
      · decide
      · exact hno43
      · decide
    have hchk : checkTokens env
        (splitPlus (joinPlus [tokUtf8, c, tokBase64])) = none := by
      rw [hsplit, checkTokens_none_iff]
      intro t ht
      simp only [List.mem_cons, List.not_mem_nil, or_false] at ht
      rcases ht with rfl | rfl | rfl
      · exact ⟨by decide, fun hx => absurd hx.1 (by decide)⟩
      · exact ⟨supported_sub_available t hcS, fun hx => hx.2 hinst⟩
      · exact ⟨by decide, fun hx => absurd hx.1 (by decide)⟩
    have hdej : dejsonify env ⟨(if mh.isEmpty then none else some mh),
        some (.bytes (b64encode tmp)), some true,
        some (joinPlus [tokUtf8, c, tokBase64])⟩ = .ok ⟨.str s, mh, true⟩ := by
      rw [dejsonify_tokens env mh (some true) (some (.bytes (b64encode tmp)))
        (joinPlus [tokUtf8, c, tokBase64]) hjoin_ne hchk, hsplit]
      show finalizeMsg true mh
        (decodeSteps env [tokUtf8, c, tokBase64] (b64encode tmp)) = _
      rw [(decodeSteps_text_kept env hwf c q hfind hcS s hs tmp htmpb
        hdecc).1]
      rfl
    refine ⟨hdej, ⟨(if mh.isEmpty then none else some mh),
      some (.str (b64encode tmp)), some true,
      some (joinPlus [tokUtf8, c, tokBase64])⟩, ?_, ?_⟩
    · exact stringifyObj_bytes _ _ _ _ _
        (utf8Dec_ascii _ (b64encode_lt128 tmp))
    · rw [dejsonify_congr_body env _ (some true)
        (joinPlus [tokUtf8, c, tokBase64]) hjoin_ne
        (some (.str (b64encode tmp))) (some (.bytes (b64encode tmp)))
        (by show utf8EncodeStr (b64encode tmp) = b64encode tmp
            exact utf8EncodeStr_ascii _ (b64encode_lt128 tmp))]
      exact hdej
  · intro hb64
    obtain ⟨st, hdecB, hencB⟩ := base64Needed_false_spec hb64
    have hjoin_ne : joinPlus [tokUtf8, c] ≠ [] := by
      simp [joinPlus, tokUtf8]
    have hsplit : splitPlus (joinPlus [tokUtf8, c]) = [tokUtf8, c] := by
      refine splitPlus_join _ (by simp) ?_
      intro t ht
      simp only [List.mem_cons, List.not_mem_nil, or_false] at ht
      rcases ht with rfl | rfl
      · decide
      · exact hno43
    have hchk : checkTokens env (splitPlus (joinPlus [tokUtf8, c])) =
        none := by
      rw [hsplit, checkTokens_none_iff]
      intro t ht
      simp only [List.mem_cons, List.not_mem_nil, or_false] at ht
      rcases ht with rfl | rfl
      · exact ⟨by decide, fun hx => absurd hx.1 (by decide)⟩
      · exact ⟨supported_sub_available t hcS, fun hx => hx.2 hinst⟩
    have hdej : dejsonify env ⟨(if mh.isEmpty then none else some mh),
        some (.bytes tmp), some true, some (joinPlus [tokUtf8, c])⟩ =
        .ok ⟨.str s, mh, true⟩ := by
      rw [dejsonify_tokens env mh (some true) (some (.bytes tmp))
        (joinPlus [tokUtf8, c]) hjoin_ne hchk, hsplit]
      show finalizeMsg true mh (decodeSteps env [tokUtf8, c] tmp) = _
      rw [(decodeSteps_text_kept env hwf c q hfind hcS s hs tmp htmpb
        hdecc).2]
      rfl
    refine ⟨hdej, ⟨(if mh.isEmpty then none else some mh),
      some (.str st), some true, some (joinPlus [tokUtf8, c])⟩,
      stringifyObj_bytes _ _ _ _ _ hdecB, ?_⟩
    rw [dejsonify_congr_body env _ (some true) (joinPlus [tokUtf8, c])
      hjoin_ne (some (.str st)) (some (.bytes tmp))
      (by show utf8EncodeStr st = tmp
          exact hencB)]
    exact hdej

/-- The compression option is either absent or names an installed,
non-empty algorithm (the "available in the running build" premise of the
round-trip contract). -/
def OptOK (env : Env) : Option Codepoints → Prop
  | none => True
  | some c => c ∈ env.names ∧ c ≠ []

/-- Core round trip at the structured-object level: `jsonify` succeeds and
`dejsonify` recovers the message exactly, both for the object itself and
for its `stringify`-adjusted form (byte body decoded to text). -/
theorem jsonify_dejsonify (env : Env) (m : Message) (opt : Option Codepoints)
    (hwf : EnvWF env) (hinv : EnvInv env) (hbytes : EnvBytes env)
    (hcons : m.Consistent) (hbody : WFBody m.body) (hne : m.body ≠ .str [])
    (hopt : OptOK env opt) :
    ∃ obj, jsonify env m opt = .ok obj ∧ dejsonify env obj = .ok m ∧
      ∃ obj2, stringifyObj obj = .ok obj2 ∧ dejsonify env obj2 = .ok m := by
  have hjs : jsonify env m opt = jsonifyBody env m opt := by
    cases opt with
    | none => rfl
    | some c =>
      have hopt2 : c ∈ env.names ∧ c ≠ [] := hopt
      exact jsonify_some env m c (compressionMatch_of_mem hopt2.1) hopt2.2
  obtain ⟨mb, mh, mt⟩ := m
  simp only [Message.Consistent] at hcons
  by_cases htr : pyTruthy mb = true
  case neg =>
    have hbb : mb = .bytes [] := by
      cases mb with
      | str sv =>
        cases sv with
        | nil => exact absurd rfl hne
        | cons a t => simp [pyTruthy] at htr
      | bytes bv =>
        cases bv with
        | nil => rfl
        | cons a t => simp [pyTruthy] at htr
    subst hbb
    have hmt : mt = false := by simpa [pyIsBytes] using hcons
    subst hmt
    have hout : jsonifyBody env ⟨.bytes [], mh, false⟩ opt =
        .ok ⟨if mh.isEmpty then none else some mh, none, none, none⟩ := by
      simp only [jsonifyBody]
      rw [if_pos (by decide)]
    exact ⟨_, hjs.trans hout, dejsonify_shape_empty env mh, _,
      stringifyObj_none _ _ _, dejsonify_shape_empty env mh⟩
  case pos =>
    cases mb with
    | str s =>
      have hmt : mt = true := by simpa [pyIsBytes] using hcons
      subst hmt
      have hs : ∀ x ∈ s, ValidCp x := hbody
      cases opt with
      | none =>
        rw [jsonifyBody_text_nocomp env _ s rfl rfl htr] at hjs
        obtain ⟨hd1, obj2, ho2, hd2⟩ := textPlain_roundtrip env mh s
        exact ⟨_, hjs, hd1, obj2, ho2, hd2⟩
      | some c =>
        have hopt2 : c ∈ env.names ∧ c ≠ [] := hopt
        have hcS : c ∈ SUPPORTED := hwf.2 c hopt2.1
        obtain ⟨q, hfind, hq1, hqmem⟩ := exists_find?_of_mem_names hopt2.1
        rw [jsonifyBody_text_comp env _ s c rfl rfl htr] at hjs
        by_cases hlen : (utf8EncodeStr s).length < 255
        · rw [compressIt_small env c _ hlen] at hjs
          have hjs2 : jsonify env ⟨.str s, mh, true⟩ (some c) =
              .ok ⟨if mh.isEmpty then none else some mh, some (.str s),
                some true, none⟩ := hjs
          obtain ⟨hd1, obj2, ho2, hd2⟩ := textPlain_roundtrip env mh s
          exact ⟨_, hjs2, hd1, obj2, ho2, hd2⟩
        · rw [compressIt_large env c _ q hlen hfind] at hjs
          by_cases hr : 10 * (q.2.1 (utf8EncodeStr s)).length <
              9 * (utf8EncodeStr s).length
          · rw [if_pos hr] at hjs
            have htmpb : ∀ x ∈ q.2.1 (utf8EncodeStr s), x < 256 :=
              hbytes q hqmem _ (utf8EncodeStr_lt256 s hs)
            have hdecc : q.2.2 (q.2.1 (utf8EncodeStr s)) = utf8EncodeStr s :=
              hinv q hqmem _
            obtain ⟨hk1, hk2⟩ := textKept_roundtrip env hwf c q hfind hcS mh
              s hs _ htmpb hdecc
            by_cases hb64 : base64Needed (q.2.1 (utf8EncodeStr s)) = true
            · have hjs2 : jsonify env ⟨.str s, mh, true⟩ (some c) =
                  .ok ⟨if mh.isEmpty then none else some mh,
                    some (.bytes (b64encode (q.2.1 (utf8EncodeStr s)))),
                    some true, some (joinPlus [tokUtf8, c, tokBase64])⟩ :=
                hjs.trans (if_pos hb64)
              obtain ⟨hd1, obj2, ho2, hd2⟩ := hk1
              exact ⟨_, hjs2, hd1, obj2, ho2, hd2⟩
            · have hb64f : base64Needed (q.2.1 (utf8EncodeStr s)) = false :=
                by simpa using hb64
              have hjs2 : jsonify env ⟨.str s, mh, true⟩ (some c) =
                  .ok ⟨if mh.isEmpty then none else some mh,
                    some (.bytes (q.2.1 (utf8EncodeStr s))), some true,
                    some (joinPlus [tokUtf8, c])⟩ :=
                hjs.trans (if_neg hb64)
              obtain ⟨hd1, obj2, ho2, hd2⟩ := hk2 hb64f
              exact ⟨_, hjs2, hd1, obj2, ho2, hd2⟩
          · rw [if_neg hr] at hjs
            have hjs2 : jsonify env ⟨.str s, mh, true⟩ (some c) =
                .ok ⟨if mh.isEmpty then none else some mh, some (.str s),
                  some true, none⟩ := hjs
            obtain ⟨hd1, obj2, ho2, hd2⟩ := textPlain_roundtrip env mh s
            exact ⟨_, hjs2, hd1, obj2, ho2, hd2⟩
    | bytes bb =>
      have hmt : mt = false := by simpa [pyIsBytes] using hcons
      subst hmt
      have hbs : ∀ x ∈ bb, x < 256 := hbody
      cases opt with
      | none =>
        rw [jsonifyBody_binary_none env _ bb rfl rfl htr] at hjs
        obtain ⟨hd1, obj2, ho2, hd2⟩ := binaryOut_none_roundtrip env hwf mh
          bb hbs
        exact ⟨_, hjs, hd1, obj2, ho2, hd2⟩
      | some c =>
        have hopt2 : c ∈ env.names ∧ c ≠ [] := hopt
        have hcS : c ∈ SUPPORTED := hwf.2 c hopt2.1
        obtain ⟨q, hfind, hq1, hqmem⟩ := exists_find?_of_mem_names hopt2.1
        rw [jsonifyBody_binary_some env _ bb c rfl rfl htr] at hjs
        by_cases hlen : bb.length < 255
        · rw [compressIt_small env c bb hlen] at hjs
          have hjs2 : jsonify env ⟨.bytes bb, mh, false⟩ (some c) =
              .ok (binaryOut (if mh.isEmpty then none else some mh) []
                bb) := hjs
          obtain ⟨hd1, obj2, ho2, hd2⟩ := binaryOut_none_roundtrip env hwf
            mh bb hbs
          exact ⟨_, hjs2, hd1, obj2, ho2, hd2⟩
        · rw [compressIt_large env c bb q hlen hfind] at hjs
          by_cases hr : 10 * (q.2.1 bb).length < 9 * bb.length
          · rw [if_pos hr] at hjs
            have hjs2 : jsonify env ⟨.bytes bb, mh, false⟩ (some c) =
                .ok (binaryOut (if mh.isEmpty then none else some mh) [c]
                  (q.2.1 bb)) := hjs
            obtain ⟨hd1, obj2, ho2, hd2⟩ := binaryOut_kept_roundtrip env hwf
              c q hfind hcS mh bb (q.2.1 bb) (hbytes q hqmem bb hbs)
              (hinv q hqmem bb)
            exact ⟨_, hjs2, hd1, obj2, ho2, hd2⟩
          · rw [if_neg hr] at hjs
            have hjs2 : jsonify env ⟨.bytes bb, mh, false⟩ (some c) =
                .ok (binaryOut (if mh.isEmpty then none else some mh) []
                  bb) := hjs
            obtain ⟨hd1, obj2, ho2, hd2⟩ := binaryOut_none_roundtrip env hwf
              mh bb hbs
            exact ⟨_, hjs2, hd1, obj2, ho2, hd2⟩

/-- Concrete text message for exercising the round trip ("hi"). -/
def mW : Message := ⟨.str [104, 105], [], true⟩

/-- The JSON object `jsonify`/`stringify` produce for `mW` with no
compression. -/
def objW : JsonObj := ⟨none, some (.str [104, 105]), some true, none⟩

/-- A JSON codec faithful on `objW` (renders to "s", parses back). -/
def codecW : JsonCodec := ⟨fun _ => [115], fun _ => some objW⟩

/-- C1 counterexample: the round trip is NOT the identity on every message —
the empty text string breaks it.  `Message(body='')` is a consistent text
message, but its falsy body makes `jsonify` emit the empty object, which
`dejsonify` reads back as the default message: an empty BYTE body with the
text flag down, unequal to the original in both directions of `__eq__`. -/
theorem c1_counterexample :
    (Message.init (.str []) none).Consistent ∧
    Message.init (.str []) none = ⟨.str [], [], true⟩ ∧
    jsonify envId (Message.init (.str []) none) none =
      .ok ⟨none, none, none, none⟩ ∧
    dejsonify envId ⟨none, none, none, none⟩ = .ok defaultMessage ∧
    defaultMessage.body = .bytes [] ∧ defaultMessage.text = false ∧
    Message.beq defaultMessage (Message.init (.str []) none) = false ∧
    Message.beq (Message.init (.str []) none) defaultMessage = false := by
  exact ⟨by decide, rfl, rfl, rfl, rfl, rfl, rfl, rfl⟩

/-- C1 (amended): for a consistent message with well-formed, non-empty-text
body and duplicate-free header keys, over an installed compressor table of
supported, lossless, byte-valued algorithms, and a requested compression
(if any) that names an installed non-empty algorithm, every round trip
recovers the message exactly: `dejsonify` after `jsonify`; `destringify`
after `stringify` and `deserialize` after `serialize` for a JSON codec
faithful on the produced object; the recovered message equals the original
in both directions of `__eq__` and has the same checksum and size. -/
theorem c1_roundtrip (env : Env) (codec : JsonCodec) (m : Message)
    (opt : Option Codepoints) (digest : Bytes → Codepoints)
    (hwf : EnvWF env) (hinv : EnvInv env) (hbytes : EnvBytes env)
    (hcons : m.Consistent) (hbody : WFBody m.body) (hne : m.body ≠ .str [])
    (hnd : (m.header.map Prod.fst).Nodup) (hopt : OptOK env opt)
    (hcodec : ∀ j2 : JsonObj,
      (jsonify env m opt).bind stringifyObj = .ok j2 →
      codec.loads (codec.dumps j2) = some j2 ∧
        ∀ x ∈ codec.dumps j2, ValidCp x) :
    ∃ obj, jsonify env m opt = .ok obj ∧ dejsonify env obj = .ok m ∧
      (∃ s, stringify env codec m opt = .ok s ∧
        destringify env codec s = .ok m) ∧
      (∃ b, serialize env codec m opt = .ok b ∧
        deserialize env codec b = .ok m) ∧
      ∀ m', dejsonify env obj = .ok m' →
        Message.beq m' m = true ∧ Message.beq m m' = true ∧
        Message.md5 digest m' = Message.md5 digest m ∧
        m'.size = m.size := by
  obtain ⟨obj, hj, hd, obj2, ho2, hd2⟩ :=
    jsonify_dejsonify env m opt hwf hinv hbytes hcons hbody hne hopt
  have hbind : (jsonify env m opt).bind stringifyObj = .ok obj2 := by
    rw [hj]
    exact ho2
  obtain ⟨hload, hvalid⟩ := hcodec obj2 hbind
  have hstr : stringify env codec m opt = .ok (codec.dumps obj2) := by
    simp only [stringify, hj, ho2]
  refine ⟨obj, hj, hd, ⟨codec.dumps obj2, hstr, ?_⟩,
    ⟨utf8EncodeStr (codec.dumps obj2), ?_, ?_⟩, ?_⟩
  · simp only [destringify, hload]
    exact hd2
  · simp only [serialize, hstr]
  · simp only [deserialize, utf8Dec_encodeStr _ hvalid]
    simp only [destringify, hload]
    exact hd2
  · intro m' hm'
    have hmm : m' = m := by
      rw [hd] at hm'
      exact (Except.ok.inj hm').symm
    subst hmm
    exact ⟨beq_refl _ hnd, beq_refl _ hnd, rfl, rfl⟩

/-- C1 witness: the round trip at the concrete text message "hi" over the
identity compressor table and a codec faithful on the produced object. -/
theorem c1_roundtrip_witness :
    ∃ obj, jsonify envId mW none = .ok obj ∧ dejsonify envId obj = .ok mW ∧
      (∃ s, stringify envId codecW mW none = .ok s ∧
        destringify envId codecW s = .ok mW) ∧
      (∃ b, serialize envId codecW mW none = .ok b ∧
        deserialize envId codecW b = .ok mW) ∧
      ∀ m', dejsonify envId obj = .ok m' →
        Message.beq m' mW = true ∧ Message.beq mW m' = true ∧
        Message.md5 (fun _ => []) m' = Message.md5 (fun _ => []) mW ∧
        m'.size = mW.size := by
  refine c1_roundtrip envId codecW mW none (fun _ => [])
    ⟨by decide, by decide⟩ ?_ ?_ (by decide)
    (by show ∀ c ∈ [104, 105], ValidCp c
        decide)
    (by decide) (by decide) trivial ?_
  · intro p hp b
    simp only [envId, List.mem_singleton] at hp
    subst hp
    rfl
  · intro p hp b hb
    simp only [envId, List.mem_singleton] at hp
    subst hp
    exact hb
  · intro j2 hj2
    have he : (jsonify envId mW none).bind stringifyObj = .ok objW := rfl
    rw [he] at hj2
    have hj2e : j2 = objW := (Except.ok.inj hj2).symm
    subst hj2e
    exact ⟨rfl, by decide⟩

end Messaging
